import Mathlib

/-!
Shallow embedding of the in-memory storage layer (`src/server/storage.ts`,
class `MemStorage`) and the tweet-creation route handler
(`src/server/routes.ts`, `POST /api/tweets`) of the munch-submission
repository, together with theorems settling the frozen claims about it.

JavaScript `Map<string, V>` objects are modelled as association lists
`List (String × V)` in insertion order: `Map.get` is a first-match lookup,
`Map.set` replaces in place when the key is present and appends otherwise,
`Map.delete` removes every entry with the key.  `Date` values are modelled
as natural-number timestamps, nullable numeric columns as `Option Int`
(with the JavaScript `x || 0` coercion made explicit), and `randomUUID()`
together with `new Date()` are passed in as explicit parameters.
-/

namespace Munch

/-- The JavaScript coercion `x || 0` applied to a nullable integer column. -/
def orZeroInt : Option Int → Int
  | none => 0
  | some v => v

/-- The JavaScript coercion `new Date(x || 0).getTime()` applied to a nullable timestamp. -/
def orZeroNat : Option Nat → Nat
  | none => 0
  | some v => v

/-- Association-list model of a JavaScript `Map<string, V>` in insertion order. -/
abbrev AMap (α : Type) := List (String × α)

/-- `Map.get`: first entry with the key, if any. -/
def mapGet {α : Type} (m : AMap α) (k : String) : Option α :=
  (m.find? (fun p => decide (p.1 = k))).map (fun p => p.2)

/-- `Map.set`: replace in place when the key is present, append otherwise. -/
def mapSet {α : Type} (m : AMap α) (k : String) (v : α) : AMap α :=
  if m.any (fun p => decide (p.1 = k)) then
    m.map (fun p => if p.1 = k then (k, v) else p)
  else m ++ [(k, v)]

/-- `Map.delete`: drop every entry with the key. -/
def mapDelete {α : Type} (m : AMap α) (k : String) : AMap α :=
  m.filter (fun p => decide (p.1 ≠ k))

/-- `Array.from(m.values())`: the values in insertion order. -/
def mapValues {α : Type} (m : AMap α) : List α :=
  m.map (fun p => p.2)

/-- A row of the `users` table (schema.ts `User`), timestamps as naturals. -/
structure User where
  id : String
  username : String
  email : String
  password : String
  displayName : String
  avatar : Option String
  bio : Option String
  isVerified : Option Bool
  isPrivate : Option Bool
  followerCount : Option Int
  followingCount : Option Int
  tweetCount : Option Int
  createdAt : Option Nat
  updatedAt : Option Nat
  deletedAt : Option Nat
deriving DecidableEq

/-- A row of the `tweets` table (schema.ts `Tweet`). -/
structure Tweet where
  id : String
  content : String
  authorId : String
  parentTweetId : Option String
  isRetweet : Option Bool
  originalTweetId : Option String
  mediaUrls : Option (List String)
  hashtags : Option (List String)
  createdAt : Option Nat
  updatedAt : Option Nat
  deletedAt : Option Nat
deriving DecidableEq

/-- A row of the `mentions` table (schema.ts `Mention`). -/
structure Mention where
  id : String
  tweetId : String
  userId : String
  createdAt : Option Nat
deriving DecidableEq

/-- A row of the `follows` table (schema.ts `Follow`). -/
structure Follow where
  id : String
  followerId : String
  followingId : String
  createdAt : Option Nat
deriving DecidableEq

/-- The engagement type union `'like' | 'retweet' | 'bookmark'`. -/
inductive EngType
  | like
  | retweet
  | bookmark
deriving DecidableEq

/-- A row of the `tweet_engagements` table (schema.ts `TweetEngagement`). -/
structure TweetEngagement where
  id : String
  tweetId : String
  userId : String
  type : EngType
  createdAt : Option Nat
deriving DecidableEq

/-- A row of the `tweet_stats` table (schema.ts `TweetStats`). -/
structure TweetStats where
  tweetId : String
  replyCount : Option Int
  retweetCount : Option Int
  likeCount : Option Int
  bookmarkCount : Option Int
  impressionCount : Option Int
  updatedAt : Option Nat
deriving DecidableEq

/-- The `TweetWithAuthor` projection: a tweet joined with its author and the
raw mention tokens extracted from its content. -/
structure TweetWithAuthor where
  tweet : Tweet
  author : User
  mentions : List String
deriving DecidableEq

/-- The `UserProfile` projection: a user spread into the response, with the
optional `isFollowing` / `isFollowedBy` booleans. -/
structure UserProfile where
  user : User
  isFollowing : Option Bool
  isFollowedBy : Option Bool
deriving DecidableEq

/-- The distinct `throw new Error(...)` sites of `MemStorage`. -/
inductive StoreErr
  | tweetNotFound
  | selfFollow
  | duplicateFollow
  | notFollowing
  | duplicateEngagement (t : EngType)
  | engagementNotFound (t : EngType)
deriving DecidableEq

/-- The whole `MemStorage` state: the six private maps. -/
structure MemStorage where
  users : AMap User
  tweets : AMap Tweet
  mentions : AMap Mention
  follows : AMap Follow
  engagements : AMap TweetEngagement
  tweetStats : AMap TweetStats
deriving DecidableEq

/-- A character matched by the JavaScript regex class `\w`, i.e. `[A-Za-z0-9_]`. -/
def isWordChar (c : Char) : Bool :=
  ('a' ≤ c && c ≤ 'z') || ('A' ≤ c && c ≤ 'Z') || ('0' ≤ c && c ≤ '9') || c = '_'

/-- The repeated-`exec` loop of the global regex `/@(\w+)/g`: scan left to
right, and at each `@` followed by at least one word character capture the
maximal word-character run and resume after it. -/
def extractGo : List Char → List String
  | [] => []
  | c :: rest =>
    if c = '@' then
      let tok := rest.takeWhile isWordChar
      if tok.isEmpty then extractGo rest
      else String.mk tok :: extractGo (rest.drop tok.length)
    else extractGo rest
termination_by l => l.length
decreasing_by
  · simp only [List.length_cons]; omega
  · simp only [List.length_cons, List.length_drop]; omega
  · simp only [List.length_cons]; omega

/-- `MemStorage.extractMentionsFromContent`: all `@(\w+)` capture groups of the
content, in order of appearance. -/
def extractMentionsFromContent (content : String) : List String :=
  extractGo content.toList

/-- `MemStorage.getUser`. -/
def getUser (s : MemStorage) (id : String) : Option User :=
  mapGet s.users id

/-- `MemStorage.getUserByUsername`: first user, in map insertion order, with
the given username. -/
def getUserByUsername (s : MemStorage) (username : String) : Option User :=
  (mapValues s.users).find? (fun u => decide (u.username = username))

/-- The key used to sort tweet projections: `new Date(createdAt || 0).getTime()`. -/
def tweetTime (tw : TweetWithAuthor) : Nat :=
  orZeroNat tw.tweet.createdAt

/-- Stable insertion of `x` into a list already sorted by `key` descending:
`x` goes in front of the first element whose key is at most `key x`. -/
def insTimeDesc {α : Type} (key : α → Nat) (x : α) : List α → List α
  | [] => [x]
  | y :: ys => if key y ≤ key x then x :: y :: ys else y :: insTimeDesc key x ys

/-- Stable sort by `key` descending, modelling `Array.prototype.sort` with the
comparator `(a, b) => key b - key a`. -/
def sortTimeDesc {α : Type} (key : α → Nat) : List α → List α
  | [] => []
  | x :: xs => insTimeDesc key x (sortTimeDesc key xs)

/-- `MemStorage.createTweet`: build the tweet row with all optional fields at
their defaults and insert it. -/
def createTweet (s : MemStorage) (freshId : String) (now : Nat)
    (content authorId : String) : Tweet × MemStorage :=
  let tweet : Tweet :=
    { id := freshId, content := content, authorId := authorId,
      parentTweetId := none, isRetweet := some false, originalTweetId := none,
      mediaUrls := none, hashtags := none,
      createdAt := some now, updatedAt := some now, deletedAt := none }
  (tweet, { s with tweets := mapSet s.tweets freshId tweet })

/-- `MemStorage.getTweetById`. -/
def getTweetById (s : MemStorage) (id : String) : Option Tweet :=
  mapGet s.tweets id

/-- `MemStorage.updateTweet`: replace the content of an existing tweet,
failing when the id is absent. -/
def updateTweet (s : MemStorage) (id : String) (content : String) :
    Except StoreErr (Tweet × MemStorage) :=
  match mapGet s.tweets id with
  | none => .error .tweetNotFound
  | some existingTweet =>
    let updatedTweet := { existingTweet with content := content }
    .ok (updatedTweet, { s with tweets := mapSet s.tweets id updatedTweet })

/-- `MemStorage.deleteTweet`: remove the tweet (failing when absent), then
delete every mention row whose `tweetId` matches, by its own id. -/
def deleteTweet (s : MemStorage) (id : String) : Except StoreErr MemStorage :=
  if s.tweets.any (fun p => decide (p.1 = id)) then
    let s1 : MemStorage := { s with tweets := mapDelete s.tweets id }
    let mentionsToDelete := (mapValues s1.mentions).filter (fun m => decide (m.tweetId = id))
    .ok { s1 with mentions := mentionsToDelete.foldl (fun acc m => mapDelete acc m.id) s1.mentions }
  else .error .tweetNotFound

/-- `MemStorage.getAllTweets`: join every tweet with its author (dropping
tweets whose author is missing), attach the raw extracted mention tokens, and
sort by creation time descending. -/
def getAllTweets (s : MemStorage) : List TweetWithAuthor :=
  sortTimeDesc tweetTime
    ((mapValues s.tweets).filterMap (fun t =>
      (getUser s t.authorId).map (fun author =>
        { tweet := t, author := author,
          mentions := extractMentionsFromContent t.content })))

/-- `MemStorage.getUserTweets`: the joined tweets authored by the user. -/
def getUserTweets (s : MemStorage) (userId : String) : List TweetWithAuthor :=
  (getAllTweets s).filter (fun tw => decide (tw.tweet.authorId = userId))

/-- The deduplication step of `getUserTimeline`: keep the first occurrence of
each tweet id. -/
def dedupById : List TweetWithAuthor → List TweetWithAuthor
  | [] => []
  | x :: xs => x :: dedupById (xs.filter (fun y => decide (y.tweet.id ≠ x.tweet.id)))
termination_by l => l.length
decreasing_by
  simp only [List.length_cons]
  exact Nat.lt_succ_of_le (List.length_filter_le _ _)

/-- `MemStorage.getUserTimeline`: the user's own joined tweets together with
those whose extracted mention tokens resolve by username lookup to the user's
id, deduplicated by tweet id and sorted by creation time descending. -/
def getUserTimeline (s : MemStorage) (userId : String) : List TweetWithAuthor :=
  let allTweets := getAllTweets s
  let userTweets := allTweets.filter (fun tw => decide (tw.tweet.authorId = userId))
  let mentionTweets := allTweets.filter (fun tw =>
    tw.mentions.any (fun m =>
      match (mapValues s.users).find? (fun u => decide (u.username = m)) with
      | some mentionedUser => decide (mentionedUser.id = userId)
      | none => false))
  sortTimeDesc tweetTime (dedupById (userTweets ++ mentionTweets))

/-- `MemStorage.createMention`: insert a mention row with a fresh id. -/
def createMention (s : MemStorage) (freshId : String) (now : Nat)
    (tweetId userId : String) : Mention × MemStorage :=
  let mention : Mention :=
    { id := freshId, tweetId := tweetId, userId := userId, createdAt := some now }
  (mention, { s with mentions := mapSet s.mentions freshId mention })

/-- `MemStorage.getTweetMentions`: resolve the users of every mention row of
the tweet, dropping rows whose user is missing. -/
def getTweetMentions (s : MemStorage) (tweetId : String) : List User :=
  ((mapValues s.mentions).filter (fun m => decide (m.tweetId = tweetId))).filterMap
    (fun m => getUser s m.userId)

/-- `MemStorage.isFollowing`: existence of the directed follow edge. -/
def isFollowing (s : MemStorage) (followerId followingId : String) : Bool :=
  (mapValues s.follows).any (fun f =>
    decide (f.followerId = followerId) && decide (f.followingId = followingId))

/-- `MemStorage.getUserProfile`: spread the whole user record into the
profile, adding the two follow booleans only for a distinct viewer. -/
def getUserProfile (s : MemStorage) (userId : String) (viewerId : Option String) :
    Option UserProfile :=
  match getUser s userId with
  | none => none
  | some user =>
    match viewerId with
    | some v =>
      if v ≠ userId then
        some { user := user, isFollowing := some (isFollowing s v userId),
               isFollowedBy := some (isFollowing s userId v) }
      else some { user := user, isFollowing := none, isFollowedBy := none }
    | none => some { user := user, isFollowing := none, isFollowedBy := none }

/-- `MemStorage.followUser`: reject self-follows and duplicate edges,
otherwise insert the edge and increment each endpoint's counter when that
user exists. -/
def followUser (s : MemStorage) (freshId : String) (now : Nat)
    (followerId followingId : String) : Except StoreErr (Follow × MemStorage) :=
  if followerId = followingId then .error .selfFollow
  else
    match (mapValues s.follows).find? (fun f =>
        decide (f.followerId = followerId) && decide (f.followingId = followingId)) with
    | some _ => .error .duplicateFollow
    | none =>
      let follow : Follow :=
        { id := freshId, followerId := followerId, followingId := followingId,
          createdAt := some now }
      let s1 : MemStorage := { s with follows := mapSet s.follows freshId follow }
      let follower := mapGet s1.users followerId
      let following := mapGet s1.users followingId
      let s2 : MemStorage :=
        match follower with
        | some u =>
          let u2 := { u with followingCount := some (orZeroInt u.followingCount + 1) }
          { s1 with users := mapSet s1.users followerId u2 }
        | none => s1
      let s3 : MemStorage :=
        match following with
        | some u =>
          let u2 := { u with followerCount := some (orZeroInt u.followerCount + 1) }
          { s2 with users := mapSet s2.users followingId u2 }
        | none => s2
      .ok (follow, s3)

/-- `MemStorage.unfollowUser`: reject when the edge is absent, otherwise
delete it and decrement each endpoint's counter, floored at zero, when that
user exists. -/
def unfollowUser (s : MemStorage) (followerId followingId : String) :
    Except StoreErr MemStorage :=
  match (mapValues s.follows).find? (fun f =>
      decide (f.followerId = followerId) && decide (f.followingId = followingId)) with
  | none => .error .notFollowing
  | some follow =>
    let s1 : MemStorage := { s with follows := mapDelete s.follows follow.id }
    let follower := mapGet s1.users followerId
    let following := mapGet s1.users followingId
    let s2 : MemStorage :=
      match follower with
      | some u =>
        let u2 := { u with followingCount := some (max 0 (orZeroInt u.followingCount - 1)) }
        { s1 with users := mapSet s1.users followerId u2 }
      | none => s1
    let s3 : MemStorage :=
      match following with
      | some u =>
        let u2 := { u with followerCount := some (max 0 (orZeroInt u.followerCount - 1)) }
        { s2 with users := mapSet s2.users followingId u2 }
      | none => s2
    .ok s3

/-- `MemStorage.getUserFollowers`: profile projections of the source of every
edge pointing at the user. -/
def getUserFollowers (s : MemStorage) (userId : String) : List UserProfile :=
  ((mapValues s.follows).filter (fun f => decide (f.followingId = userId))).filterMap
    (fun f => getUserProfile s f.followerId none)

/-- `MemStorage.getUserFollowing`: profile projections of the target of every
edge leaving the user. -/
def getUserFollowing (s : MemStorage) (userId : String) : List UserProfile :=
  ((mapValues s.follows).filter (fun f => decide (f.followerId = userId))).filterMap
    (fun f => getUserProfile s f.followingId none)

/-- `MemStorage.updateTweetStatsForEngagement`: fetch the stats row (creating
it with all counters at zero when absent), apply the delta to the counter of
the engagement type, floored at zero, and store it with a fresh timestamp. -/
def updateTweetStatsForEngagement (s : MemStorage) (tweetId : String)
    (type : EngType) (delta : Int) (now : Nat) : MemStorage :=
  let stats : TweetStats :=
    match mapGet s.tweetStats tweetId with
    | some st => st
    | none =>
      { tweetId := tweetId, replyCount := some 0, retweetCount := some 0,
        likeCount := some 0, bookmarkCount := some 0, impressionCount := some 0,
        updatedAt := some now }
  let stats2 : TweetStats :=
    match type with
    | .like => { stats with likeCount := some (max 0 (orZeroInt stats.likeCount + delta)) }
    | .retweet => { stats with retweetCount := some (max 0 (orZeroInt stats.retweetCount + delta)) }
    | .bookmark => { stats with bookmarkCount := some (max 0 (orZeroInt stats.bookmarkCount + delta)) }
  { s with tweetStats := mapSet s.tweetStats tweetId ({ stats2 with updatedAt := some now }) }

/-- `MemStorage.engageWithTweet`: reject a duplicate `(user, tweet, type)`
record, otherwise insert the record and bump the matching stats counter. -/
def engageWithTweet (s : MemStorage) (freshId : String) (now : Nat)
    (userId tweetId : String) (type : EngType) :
    Except StoreErr (TweetEngagement × MemStorage) :=
  match (mapValues s.engagements).find? (fun e =>
      decide (e.userId = userId) && decide (e.tweetId = tweetId) && decide (e.type = type)) with
  | some _ => .error (.duplicateEngagement type)
  | none =>
    let engagement : TweetEngagement :=
      { id := freshId, tweetId := tweetId, userId := userId, type := type,
        createdAt := some now }
    let s1 : MemStorage := { s with engagements := mapSet s.engagements freshId engagement }
    .ok (engagement, updateTweetStatsForEngagement s1 tweetId type 1 now)

/-- `MemStorage.removeEngagement`: reject when no matching record exists,
otherwise delete it and apply a `-1` delta to the matching stats counter. -/
def removeEngagement (s : MemStorage) (now : Nat)
    (userId tweetId : String) (type : EngType) : Except StoreErr MemStorage :=
  match (mapValues s.engagements).find? (fun e =>
      decide (e.userId = userId) && decide (e.tweetId = tweetId) && decide (e.type = type)) with
  | none => .error (.engagementNotFound type)
  | some engagement =>
    let s1 : MemStorage := { s with engagements := mapDelete s.engagements engagement.id }
    .ok (updateTweetStatsForEngagement s1 tweetId type (-1) now)

/-- `MemStorage.getTweetStats`. -/
def getTweetStats (s : MemStorage) (tweetId : String) : Option TweetStats :=
  mapGet s.tweetStats tweetId

/-- `MemStorage.getUserEngagement`: every engagement record of the pair. -/
def getUserEngagement (s : MemStorage) (userId tweetId : String) : List TweetEngagement :=
  (mapValues s.engagements).filter (fun e =>
    decide (e.userId = userId) && decide (e.tweetId = tweetId))

/-- The mention-creation loop of the `POST /api/tweets` handler in
`routes.ts`: for each extracted token, in order, resolve it by username and
create a mention row (with the next fresh id) when it resolves. -/
def processMentionTokens (freshIds : Nat → String) (now : Nat) (tweetId : String) :
    Nat → List String → MemStorage → MemStorage
  | _, [], s => s
  | i, tok :: toks, s =>
    match getUserByUsername s tok with
    | some mentionedUser =>
      processMentionTokens freshIds now tweetId (i + 1) toks
        (createMention s (freshIds i) now tweetId mentionedUser.id).2
    | none => processMentionTokens freshIds now tweetId i toks s

/-- The JSON body returned by the `POST /api/tweets` handler: the tweet
spread with its author lookup and the raw extracted mention tokens. -/
structure TweetResponse where
  tweet : Tweet
  author : Option User
  mentions : List String
deriving DecidableEq

/-- The `POST /api/tweets` handler after validation: create the tweet, create
a mention row for every token resolving to a registered username, and shape
the response from the raw token list. -/
def createTweetRoute (s : MemStorage) (tweetId : String) (freshIds : Nat → String)
    (now : Nat) (authorId content : String) : TweetResponse × MemStorage :=
  let (tweet, s1) := createTweet s tweetId now content authorId
  let s2 := processMentionTokens freshIds now tweet.id 0
    (extractMentionsFromContent content) s1
  ({ tweet := tweet, author := getUser s2 tweet.authorId,
     mentions := extractMentionsFromContent content }, s2)

/-! ### Lemmas about the map model -/

/-- Auxiliary: a first-match lookup in the in-place-replacement branch of `mapSet`. -/
theorem find?_replace_self {α : Type} (k : String) (v : α) (m : AMap α)
    (hm : m.any (fun p => decide (p.1 = k)) = true) :
    (m.map (fun p => if p.1 = k then (k, v) else p)).find? (fun p => decide (p.1 = k)) =
      some (k, v) := by
  induction m with
  | nil => simp at hm
  | cons q m ih =>
    by_cases hq : q.1 = k
    · simp [hq, List.find?_cons_of_pos]
    · have hm' : m.any (fun p => decide (p.1 = k)) = true := by simpa [hq] using hm
      rw [List.map_cons, if_neg hq, List.find?_cons_of_neg _ (by simpa using hq)]
      exact ih hm'

/-- Auxiliary: replacement at key `k` does not disturb lookups at other keys. -/
theorem find?_replace_ne {α : Type} (k k' : String) (v : α) (m : AMap α)
    (h : k' ≠ k) :
    (m.map (fun p => if p.1 = k then (k, v) else p)).find? (fun p => decide (p.1 = k')) =
      m.find? (fun p => decide (p.1 = k')) := by
  induction m with
  | nil => simp
  | cons q m ih =>
    by_cases hq : q.1 = k
    · have hk' : ¬ ((k, v).1 = k') := fun hh => h hh.symm
      have hq' : ¬ (q.1 = k') := fun hh => h (hh.symm.trans hq)
      rw [List.map_cons, if_pos hq, List.find?_cons_of_neg _ (by simpa using hk'),
        List.find?_cons_of_neg _ (by simpa using hq')]
      exact ih
    · by_cases hq' : q.1 = k'
      · rw [List.map_cons, if_neg hq, List.find?_cons_of_pos _ (by simpa using hq'),
          List.find?_cons_of_pos _ (by simpa using hq')]
      · rw [List.map_cons, if_neg hq, List.find?_cons_of_neg _ (by simpa using hq'),
          List.find?_cons_of_neg _ (by simpa using hq')]
        exact ih

/-- Auxiliary: a lookup in an appended singleton. -/
theorem find?_append_single {α : Type} (k k' : String) (v : α) (m : AMap α) :
    (m ++ [(k, v)]).find? (fun p => decide (p.1 = k')) =
      ((m.find? (fun p => decide (p.1 = k'))).orElse
        (fun _ => if k = k' then some (k, v) else none)) := by
  induction m with
  | nil => by_cases hk : k = k' <;> simp [hk, List.find?_cons]
  | cons q m ih =>
    by_cases hq : q.1 = k'
    · rw [List.cons_append, List.find?_cons_of_pos _ (by simpa using hq),
        List.find?_cons_of_pos _ (by simpa using hq)]
      rfl
    · rw [List.cons_append, List.find?_cons_of_neg _ (by simpa using hq),
        List.find?_cons_of_neg _ (by simpa using hq)]
      exact ih

/-- Looking up the key just set returns the new value. -/
theorem mapGet_mapSet_self {α : Type} (m : AMap α) (k : String) (v : α) :
    mapGet (mapSet m k v) k = some v := by
  unfold mapSet
  split
  · rename_i hany
    unfold mapGet
    rw [find?_replace_self k v m hany]
    rfl
  · rename_i hany
    unfold mapGet
    rw [find?_append_single k k v m]
    have : m.find? (fun p => decide (p.1 = k)) = none := by
      rw [List.find?_eq_none]
      intro p hp
      simp only [decide_eq_true_eq]
      intro hpk
      exact hany (List.any_eq_true.mpr ⟨p, hp, by simpa using hpk⟩)
    simp [this]

/-- Looking up a different key is unchanged by a set. -/
theorem mapGet_mapSet_ne {α : Type} (m : AMap α) (k k' : String) (v : α)
    (h : k' ≠ k) : mapGet (mapSet m k v) k' = mapGet m k' := by
  unfold mapSet
  split
  · unfold mapGet
    rw [find?_replace_ne k k' v m h]
  · unfold mapGet
    rw [find?_append_single k k' v m, if_neg (fun hh => h hh.symm)]
    cases m.find? (fun p => decide (p.1 = k')) <;> rfl

/-- A lookup misses exactly when no entry carries the key. -/
theorem mapGet_eq_none_iff {α : Type} (m : AMap α) (k : String) :
    mapGet m k = none ↔ ∀ p ∈ m, p.1 ≠ k := by
  unfold mapGet
  rw [Option.map_eq_none', List.find?_eq_none]
  simp

/-- Setting a key absent from the map appends the entry. -/
theorem mapSet_fresh {α : Type} (m : AMap α) (k : String) (v : α)
    (h : ∀ p ∈ m, p.1 ≠ k) : mapSet m k v = m ++ [(k, v)] := by
  unfold mapSet
  rw [if_neg]
  simp only [List.any_eq_true, decide_eq_true_eq, not_exists]
  intro p hp
  exact h p hp.1 hp.2

/-- Deleting a freshly-appended key restores the original map. -/
theorem mapDelete_append_fresh {α : Type} (m : AMap α) (k : String) (v : α)
    (h : ∀ p ∈ m, p.1 ≠ k) : mapDelete (m ++ [(k, v)]) k = m := by
  unfold mapDelete
  have h1 : m.filter (fun p => decide (p.1 ≠ k)) = m :=
    List.filter_eq_self.mpr (fun p hp => by simp [h p hp])
  have h2 : List.filter (fun p => decide (p.1 ≠ k)) [(k, v)] = [] := by simp
  rw [List.filter_append, h1, h2, List.append_nil]

/-- Every value of a map after a set is the new value or an old value. -/
theorem mem_mapValues_mapSet {α : Type} {m : AMap α} {k : String} {v u : α}
    (h : u ∈ mapValues (mapSet m k v)) : u = v ∨ u ∈ mapValues m := by
  unfold mapSet at h
  split at h
  · unfold mapValues at h ⊢
    rw [List.map_map] at h
    rcases List.mem_map.mp h with ⟨p, hp, hpu⟩
    by_cases hk : p.1 = k
    · left
      rw [show ((fun p => p.2) ∘ fun p => if p.1 = k then (k, v) else p) p =
          (if p.1 = k then (k, v) else p).2 from rfl, if_pos hk] at hpu
      exact hpu.symm
    · right
      rw [show ((fun p => p.2) ∘ fun p => if p.1 = k then (k, v) else p) p =
          (if p.1 = k then (k, v) else p).2 from rfl, if_neg hk] at hpu
      exact List.mem_map.mpr ⟨p, hp, hpu⟩
  · unfold mapValues at h ⊢
    rw [List.map_append] at h
    rcases List.mem_append.mp h with h | h
    · exact Or.inr h
    · simp only [List.map_cons, List.map_nil, List.mem_singleton] at h
      exact Or.inl h

/-- Values of an append. -/
theorem mapValues_append {α : Type} (m n : AMap α) :
    mapValues (m ++ n) = mapValues m ++ mapValues n :=
  List.map_append _ m n

/-! ### Lemmas about the descending sort -/

/-- Inserting keeps exactly the elements, with the new one in front. -/
theorem insTimeDesc_perm {α : Type} (key : α → Nat) (x : α) (l : List α) :
    (insTimeDesc key x l).Perm (x :: l) := by
  induction l with
  | nil => exact List.Perm.refl _
  | cons y ys ih =>
    unfold insTimeDesc
    split
    · exact List.Perm.refl _
    · exact ((ih.cons y).trans (List.Perm.swap x y ys))

/-- The sort is a permutation of its input. -/
theorem sortTimeDesc_perm {α : Type} (key : α → Nat) (l : List α) :
    (sortTimeDesc key l).Perm l := by
  induction l with
  | nil => exact List.Perm.refl _
  | cons x xs ih =>
    exact (insTimeDesc_perm key x _).trans (ih.cons x)

/-- Inserting preserves descending sortedness. -/
theorem insTimeDesc_pairwise {α : Type} (key : α → Nat) (x : α) (l : List α)
    (h : l.Pairwise (fun a b => key b ≤ key a)) :
    (insTimeDesc key x l).Pairwise (fun a b => key b ≤ key a) := by
  induction l with
  | nil => simp [insTimeDesc]
  | cons y ys ih =>
    rcases List.pairwise_cons.mp h with ⟨hy, hys⟩
    unfold insTimeDesc
    split
    · rename_i hle
      refine List.pairwise_cons.mpr ⟨?_, h⟩
      intro z hz
      rcases List.mem_cons.mp hz with hz | hz
      · exact hz ▸ hle
      · exact le_trans (hy z hz) hle
    · rename_i hgt
      refine List.pairwise_cons.mpr ⟨?_, ih hys⟩
      intro z hz
      have hz' := (insTimeDesc_perm key x ys).mem_iff.mp hz
      rcases List.mem_cons.mp hz' with hz' | hz'
      · subst hz'
        omega
      · exact hy z hz'

/-- The sort output is descending in the key. -/
theorem sortTimeDesc_pairwise {α : Type} (key : α → Nat) (l : List α) :
    (sortTimeDesc key l).Pairwise (fun a b => key b ≤ key a) := by
  induction l with
  | nil => simp [sortTimeDesc]
  | cons x xs ih => exact insTimeDesc_pairwise key x _ ih

/-! ### Lemmas about the deduplication step -/

/-- Deduplication only keeps elements of the input. -/
theorem dedupById_subset (l : List TweetWithAuthor) :
    ∀ x ∈ dedupById l, x ∈ l := by
  induction l using dedupById.induct with
  | case1 => simp [dedupById]
  | case2 y ys ih =>
    intro x hx
    rw [dedupById] at hx
    rcases List.mem_cons.mp hx with hx | hx
    · simp [hx]
    · exact List.mem_cons_of_mem y (List.mem_of_mem_filter (ih x hx))

/-- Every input id survives deduplication. -/
theorem dedupById_id_surj (l : List TweetWithAuthor) :
    ∀ x ∈ l, ∃ y ∈ dedupById l, y.tweet.id = x.tweet.id := by
  induction l using dedupById.induct with
  | case1 => simp
  | case2 y ys ih =>
    intro x hx
    rcases List.mem_cons.mp hx with hx | hx
    · exact ⟨y, by rw [dedupById]; simp, by rw [hx]⟩
    · by_cases hid : x.tweet.id = y.tweet.id
      · exact ⟨y, by rw [dedupById]; simp, hid.symm⟩
      · have hx' : x ∈ ys.filter (fun z => decide (z.tweet.id ≠ y.tweet.id)) :=
          List.mem_filter.mpr ⟨hx, by simp [hid]⟩
        rcases ih x hx' with ⟨z, hz, hzid⟩
        exact ⟨z, by rw [dedupById]; exact List.mem_cons_of_mem y hz, hzid⟩

/-- The ids after deduplication are distinct. -/
theorem dedupById_ids_nodup (l : List TweetWithAuthor) :
    ((dedupById l).map (fun tw => tw.tweet.id)).Nodup := by
  induction l using dedupById.induct with
  | case1 => simp [dedupById]
  | case2 y ys ih =>
    rw [dedupById]
    simp only [List.map_cons, List.nodup_cons]
    refine ⟨?_, ih⟩
    intro hmem
    rcases List.mem_map.mp hmem with ⟨z, hz, hzid⟩
    have hz' := dedupById_subset _ z hz
    have hne := (List.mem_filter.mp hz').2
    simp only [decide_eq_true_eq] at hne
    exact hne hzid

/-- Deleting a key makes its lookup miss. -/
theorem mapGet_mapDelete_self {α : Type} (m : AMap α) (k : String) :
    mapGet (mapDelete m k) k = none := by
  rw [mapGet_eq_none_iff]
  intro p hp
  have := (List.mem_filter.mp hp).2
  simpa using this

/-- Deleting a key leaves other lookups unchanged. -/
theorem mapGet_mapDelete_ne {α : Type} (m : AMap α) (k k' : String) (h : k' ≠ k) :
    mapGet (mapDelete m k) k' = mapGet m k' := by
  unfold mapGet mapDelete
  induction m with
  | nil => simp
  | cons q m ih =>
    by_cases hq : q.1 = k
    · have hq' : ¬ (q.1 = k') := fun hh => h (hh.symm.trans hq)
      rw [List.filter_cons_of_neg (by simp [hq]),
        List.find?_cons_of_neg _ (by simpa using hq')]
      exact ih
    · by_cases hq' : q.1 = k'
      · rw [List.filter_cons_of_pos (by simp [hq]),
          List.find?_cons_of_pos _ (by simpa using hq'),
          List.find?_cons_of_pos _ (by simpa using hq')]
      · rw [List.filter_cons_of_pos (by simp [hq]),
          List.find?_cons_of_neg _ (by simpa using hq'),
          List.find?_cons_of_neg _ (by simpa using hq')]
        exact ih

/-- Membership after a fold of deletions: the entry survives exactly when its
key matches none of the deleted ids. -/
theorem mem_foldl_mapDelete {α β : Type} (f : β → String) (D : List β)
    (m0 : AMap α) (p : String × α) :
    p ∈ D.foldl (fun acc d => mapDelete acc (f d)) m0 ↔
      p ∈ m0 ∧ ∀ d ∈ D, p.1 ≠ f d := by
  induction D generalizing m0 with
  | nil => simp
  | cons d D ih =>
    rw [List.foldl_cons, ih (mapDelete m0 (f d))]
    unfold mapDelete
    rw [List.mem_filter]
    simp only [decide_eq_true_eq, List.mem_cons]
    constructor
    · rintro ⟨⟨hp, hpd⟩, hD⟩
      exact ⟨hp, fun e he => he.elim (fun hh => hh ▸ hpd) (hD e)⟩
    · rintro ⟨hp, hD⟩
      exact ⟨⟨hp, hD d (Or.inl rfl)⟩, fun e he => hD e (Or.inr he)⟩

/-- A successful lookup yields a value of the map. -/
theorem mapGet_mem_values {α : Type} {m : AMap α} {k : String} {v : α}
    (h : mapGet m k = some v) : v ∈ mapValues m := by
  unfold mapGet at h
  rcases Option.map_eq_some'.mp h with ⟨p, hp, hpv⟩
  exact hpv ▸ List.mem_map.mpr ⟨p, List.mem_of_find?_eq_some hp, rfl⟩

/-! ### Claim theorems -/

/-- C6: `updateTweet` on an existing id replaces only the `content` field,
leaves every other stored field of that tweet and all other tweets unchanged,
and touches no other store; on a missing id it fails with the not-found
error (throwing before any mutation, so nothing changes). -/
theorem updateTweet_content_only (s : MemStorage) (id c : String) :
    (mapGet s.tweets id = none → updateTweet s id c = .error .tweetNotFound) ∧
    (∀ t0, mapGet s.tweets id = some t0 →
      ∃ s', updateTweet s id c = .ok ({ t0 with content := c }, s') ∧
        s'.users = s.users ∧ s'.mentions = s.mentions ∧ s'.follows = s.follows ∧
        s'.engagements = s.engagements ∧ s'.tweetStats = s.tweetStats ∧
        getTweetById s' id = some ({ t0 with content := c }) ∧
        (∀ k, k ≠ id → getTweetById s' k = getTweetById s k)) := by
  constructor
  · intro hnone
    unfold updateTweet
    rw [hnone]
  · intro t0 ht0
    refine ⟨{ s with tweets := mapSet s.tweets id ({ t0 with content := c }) }, ?_, rfl, rfl,
      rfl, rfl, rfl, ?_, ?_⟩
    · unfold updateTweet
      rw [ht0]
    · unfold getTweetById
      exact mapGet_mapSet_self _ _ _
    · intro k hk
      unfold getTweetById
      exact mapGet_mapSet_ne _ _ _ _ hk

/-- C7: `deleteTweet` on an existing id removes the tweet (its lookup then
misses), removes every mention row whose `tweetId` is that id (their lookup
then returns the empty list), leaves other tweets and the other stores
untouched; on a missing id it fails with the not-found error and the store
is unchanged. -/
theorem deleteTweet_cascades_mentions (s : MemStorage) (id : String)
    (hm : ∀ p ∈ s.mentions, p.2.id = p.1) :
    (mapGet s.tweets id = none → deleteTweet s id = .error .tweetNotFound) ∧
    (∀ t0, mapGet s.tweets id = some t0 →
      ∃ s', deleteTweet s id = .ok s' ∧
        getTweetById s' id = none ∧
        getTweetMentions s' id = [] ∧
        (∀ k, k ≠ id → getTweetById s' k = getTweetById s k) ∧
        (∀ p ∈ s'.mentions, p ∈ s.mentions ∧ p.2.tweetId ≠ id) ∧
        s'.users = s.users ∧ s'.follows = s.follows ∧
        s'.engagements = s.engagements ∧ s'.tweetStats = s.tweetStats) := by
  have hsurvive : ∀ p ∈ (((mapValues s.mentions).filter
        (fun m => decide (m.tweetId = id))).foldl
        (fun acc m => mapDelete acc m.id) s.mentions),
      p ∈ s.mentions ∧ p.2.tweetId ≠ id := by
    intro p hp
    rw [mem_foldl_mapDelete] at hp
    refine ⟨hp.1, fun htid => ?_⟩
    have hval : p.2 ∈ (mapValues s.mentions).filter (fun m => decide (m.tweetId = id)) :=
      List.mem_filter.mpr ⟨List.mem_map.mpr ⟨p, hp.1, rfl⟩, by simp [htid]⟩
    exact hp.2 p.2 hval (hm p hp.1).symm
  constructor
  · intro hnone
    unfold deleteTweet
    rw [if_neg]
    rw [mapGet_eq_none_iff] at hnone
    simp only [List.any_eq_true, decide_eq_true_eq, not_exists]
    intro p hp
    exact hnone p hp.1 hp.2
  · intro t0 ht0
    have hany : s.tweets.any (fun p => decide (p.1 = id)) = true := by
      unfold mapGet at ht0
      rcases Option.map_eq_some'.mp ht0 with ⟨p, hp, _⟩
      have hpp := List.find?_some hp
      exact List.any_eq_true.mpr ⟨p, List.mem_of_find?_eq_some hp, hpp⟩
    have hdel : deleteTweet s id = Except.ok
        { users := s.users,
          tweets := mapDelete s.tweets id,
          mentions := (((mapValues s.mentions).filter
            (fun m => decide (m.tweetId = id))).foldl
            (fun acc m => mapDelete acc m.id) s.mentions),
          follows := s.follows,
          engagements := s.engagements,
          tweetStats := s.tweetStats } := by
      unfold deleteTweet
      rw [if_pos hany]
    refine ⟨_, hdel, ?_, ?_, ?_, ?_, ?_, ?_, ?_, ?_⟩
    · exact mapGet_mapDelete_self _ _
    · unfold getTweetMentions
      have : (mapValues (((mapValues s.mentions).filter
            (fun m => decide (m.tweetId = id))).foldl
            (fun acc m => mapDelete acc m.id) s.mentions)).filter
          (fun m => decide (m.tweetId = id)) = [] := by
        rw [List.filter_eq_nil_iff]
        intro v hv
        rcases List.mem_map.mp hv with ⟨p, hp, hpv⟩
        have := (hsurvive p hp).2
        simp [← hpv, this]
      rw [this]
      rfl
    · intro k hk
      exact mapGet_mapDelete_ne _ _ _ hk
    · exact hsurvive
    · rfl
    · rfl
    · rfl
    · rfl

/-- C10: `deleteTweet` cascades only to mentions: on success the engagement
records and the stats row of the deleted tweet survive unchanged, so
`getTweetStats` and `getUserEngagement` answer exactly as before. -/
theorem deleteTweet_keeps_engagements (s : MemStorage) (id : String) :
    ∀ s', deleteTweet s id = .ok s' →
      s'.engagements = s.engagements ∧ s'.tweetStats = s.tweetStats ∧
      getTweetStats s' id = getTweetStats s id ∧
      (∀ u, getUserEngagement s' u id = getUserEngagement s u id) := by
  intro s' h
  unfold deleteTweet at h
  split at h
  · injection h with h
    subst h
    exact ⟨rfl, rfl, rfl, fun u => rfl⟩
  · cases h

/-- A user record with the defaults `createUser` fills in, used as a fixture. -/
def mkUser (id username email password displayName : String) : User :=
  { id := id, username := username, email := email, password := password,
    displayName := displayName, avatar := some "https://images.unsplash.com/photo",
    bio := none, isVerified := some false, isPrivate := some false,
    followerCount := some 0, followingCount := some 0, tweetCount := some 0,
    createdAt := some 1, updatedAt := some 1, deletedAt := none }

/-- Fixture for the password-exposure claim. -/
def aliceC8 : User := mkUser "u1" "alice" "alice@example.com" "hash-one" "Alice"

/-- Store holding only `aliceC8`. -/
def storeC8a : MemStorage := ⟨[("u1", aliceC8)], [], [], [], [], []⟩

/-- The same store with only the stored password changed. -/
def storeC8b : MemStorage :=
  ⟨[("u1", { aliceC8 with password := "hash-two" })], [], [], [], [], []⟩

/-- C8 (refuted by the code): `getUserProfile` spreads the whole user record,
so the projection contains the stored password hash and two stores differing
only in a user's password yield different projections. -/
theorem getUserProfile_depends_on_password :
    getUserProfile storeC8a "u1" none =
      some { user := aliceC8, isFollowing := none, isFollowedBy := none } ∧
    getUserProfile storeC8b "u1" none =
      some { user := { aliceC8 with password := "hash-two" },
             isFollowing := none, isFollowedBy := none } ∧
    getUserProfile storeC8a "u1" none ≠ getUserProfile storeC8b "u1" none ∧
    (getUserProfile storeC8a "u1" none).map (fun p => p.user.password) =
      some "hash-one" := by
  refine ⟨rfl, rfl, ?_, rfl⟩
  decide

/-! ### The follow operations, unfolded -/

/-- The counter-update tail of `followUser`: read both endpoints from the
map, then bump `followingCount` of the follower and `followerCount` of the
followed, skipping each update when that user is absent. -/
def applyFollowCounts (users : AMap User) (a b : String) : AMap User :=
  let follower := mapGet users a
  let following := mapGet users b
  let users2 :=
    match follower with
    | some u => mapSet users a { u with followingCount := some (orZeroInt u.followingCount + 1) }
    | none => users
  match following with
  | some u => mapSet users2 b { u with followerCount := some (orZeroInt u.followerCount + 1) }
  | none => users2

/-- The counter-update tail of `unfollowUser`, decrementing with a floor at
zero. -/
def applyUnfollowCounts (users : AMap User) (a b : String) : AMap User :=
  let follower := mapGet users a
  let following := mapGet users b
  let users2 :=
    match follower with
    | some u => mapSet users a { u with followingCount := some (max 0 (orZeroInt u.followingCount - 1)) }
    | none => users
  match following with
  | some u => mapSet users2 b { u with followerCount := some (max 0 (orZeroInt u.followerCount - 1)) }
  | none => users2

/-- When the follower id is absent, `applyFollowCounts` leaves it absent. -/
theorem applyFollowCounts_a_none (users : AMap User) (a b : String)
    (hab : a ≠ b) (ha : mapGet users a = none) :
    mapGet (applyFollowCounts users a b) a = none := by
  unfold applyFollowCounts
  rw [ha]
  cases hb : mapGet users b with
  | none => exact ha
  | some ub => rw [mapGet_mapSet_ne users b a _ hab]; exact ha

/-- When the followed id is absent, `applyFollowCounts` leaves it absent. -/
theorem applyFollowCounts_b_none (users : AMap User) (a b : String)
    (hab : a ≠ b) (hb : mapGet users b = none) :
    mapGet (applyFollowCounts users a b) b = none := by
  unfold applyFollowCounts
  rw [hb]
  cases ha : mapGet users a with
  | none => exact hb
  | some ua => rw [mapGet_mapSet_ne users a b _ (Ne.symm hab)]; exact hb

/-- When both ids are absent, `applyFollowCounts` is the identity. -/
theorem applyFollowCounts_both_none (users : AMap User) (a b : String)
    (ha : mapGet users a = none) (hb : mapGet users b = none) :
    applyFollowCounts users a b = users := by
  unfold applyFollowCounts
  rw [ha, hb]

/-- When both ids are present, `applyFollowCounts` is the two counter bumps. -/
theorem applyFollowCounts_both_some (users : AMap User) (a b : String)
    (ua ub : User) (ha : mapGet users a = some ua) (hb : mapGet users b = some ub) :
    applyFollowCounts users a b =
      mapSet (mapSet users a ({ ua with followingCount := some (orZeroInt ua.followingCount + 1) })) b
        ({ ub with followerCount := some (orZeroInt ub.followerCount + 1) }) := by
  unfold applyFollowCounts
  rw [ha, hb]

/-- When both ids are present, `applyUnfollowCounts` is the two floored
counter decrements. -/
theorem applyUnfollowCounts_both_some (users : AMap User) (a b : String)
    (ua ub : User) (ha : mapGet users a = some ua) (hb : mapGet users b = some ub) :
    applyUnfollowCounts users a b =
      mapSet (mapSet users a ({ ua with followingCount := some (max 0 (orZeroInt ua.followingCount - 1)) })) b
        ({ ub with followerCount := some (max 0 (orZeroInt ub.followerCount - 1)) }) := by
  unfold applyUnfollowCounts
  rw [ha, hb]

/-- On the success path, `followUser` inserts the edge and applies the
counter updates. -/
theorem followUser_ok_eq (s : MemStorage) (fid : String) (now : Nat) (a b : String)
    (hab : a ≠ b)
    (hnoedge : ∀ f ∈ mapValues s.follows, ¬ (f.followerId = a ∧ f.followingId = b)) :
    followUser s fid now a b = Except.ok
      ({ id := fid, followerId := a, followingId := b, createdAt := some now },
       { s with
          follows := mapSet s.follows fid
            { id := fid, followerId := a, followingId := b, createdAt := some now },
          users := applyFollowCounts s.users a b }) := by
  have hfind : (mapValues s.follows).find? (fun f =>
      decide (f.followerId = a) && decide (f.followingId = b)) = none := by
    rw [List.find?_eq_none]
    intro f hf
    simp only [Bool.and_eq_true, decide_eq_true_eq, not_and]
    intro h1 h2
    exact hnoedge f hf ⟨h1, h2⟩
  unfold followUser
  rw [if_neg hab, hfind]
  unfold applyFollowCounts
  dsimp only
  cases ha : mapGet s.users a <;> cases hb : mapGet s.users b <;> rfl

/-- On the success path, `unfollowUser` deletes the first matching edge and
applies the floored counter decrements. -/
theorem unfollowUser_ok_eq (s : MemStorage) (a b : String) (f : Follow)
    (hfind : (mapValues s.follows).find? (fun f =>
      decide (f.followerId = a) && decide (f.followingId = b)) = some f) :
    unfollowUser s a b = Except.ok
      { s with follows := mapDelete s.follows f.id,
               users := applyUnfollowCounts s.users a b } := by
  unfold unfollowUser
  rw [hfind]
  unfold applyUnfollowCounts
  dsimp only
  cases ha : mapGet s.users a <;> cases hb : mapGet s.users b <;> rfl

/-- C3: `followUser` fails with the self-follow error exactly when the two
ids coincide, fails with the duplicate error exactly when they differ and
the edge already exists, and otherwise appends exactly one new edge;
`unfollowUser` fails with the not-following error exactly when no edge
exists, and otherwise removes the found edge. -/
theorem follow_error_conditions (s : MemStorage) (fid : String) (now : Nat) (a b : String)
    (hfresh : ∀ p ∈ s.follows, p.1 ≠ fid) :
    (followUser s fid now a b = .error .selfFollow ↔ a = b) ∧
    (followUser s fid now a b = .error .duplicateFollow ↔
      a ≠ b ∧ ∃ f ∈ mapValues s.follows, f.followerId = a ∧ f.followingId = b) ∧
    (a ≠ b → (∀ f ∈ mapValues s.follows, ¬ (f.followerId = a ∧ f.followingId = b)) →
      ∃ s', followUser s fid now a b =
          .ok ({ id := fid, followerId := a, followingId := b, createdAt := some now }, s') ∧
        s'.follows = s.follows ++
          [(fid, { id := fid, followerId := a, followingId := b, createdAt := some now })]) ∧
    (unfollowUser s a b = .error .notFollowing ↔
      ∀ f ∈ mapValues s.follows, ¬ (f.followerId = a ∧ f.followingId = b)) ∧
    (∀ s', unfollowUser s a b = .ok s' →
      ∃ f, f ∈ mapValues s.follows ∧ f.followerId = a ∧ f.followingId = b ∧
        s'.follows = mapDelete s.follows f.id) := by
  refine ⟨?_, ?_, ?_, ?_, ?_⟩
  · constructor
    · intro h
      by_contra hab
      unfold followUser at h
      rw [if_neg hab] at h
      cases hf : (mapValues s.follows).find? (fun f =>
          decide (f.followerId = a) && decide (f.followingId = b)) with
      | none => rw [hf] at h; cases h
      | some f => rw [hf] at h; cases h
    · intro h
      unfold followUser
      rw [if_pos h]
  · constructor
    · intro h
      by_cases hab : a = b
      · unfold followUser at h
        rw [if_pos hab] at h
        cases h
      · refine ⟨hab, ?_⟩
        unfold followUser at h
        rw [if_neg hab] at h
        cases hf : (mapValues s.follows).find? (fun f =>
            decide (f.followerId = a) && decide (f.followingId = b)) with
        | none => rw [hf] at h; cases h
        | some f =>
          have hmem := List.mem_of_find?_eq_some hf
          have hp := List.find?_some hf
          simp only [Bool.and_eq_true, decide_eq_true_eq] at hp
          exact ⟨f, hmem, hp.1, hp.2⟩
    · rintro ⟨hab, f, hf, h1, h2⟩
      unfold followUser
      rw [if_neg hab]
      have : ((mapValues s.follows).find? (fun f =>
          decide (f.followerId = a) && decide (f.followingId = b))).isSome = true :=
        List.find?_isSome.mpr ⟨f, hf, by simp [h1, h2]⟩
      cases hfind : (mapValues s.follows).find? (fun f =>
          decide (f.followerId = a) && decide (f.followingId = b)) with
      | none => rw [hfind] at this; cases this
      | some g => rfl
  · intro hab hnoedge
    refine ⟨_, followUser_ok_eq s fid now a b hab hnoedge, ?_⟩
    exact mapSet_fresh s.follows fid _ hfresh
  · constructor
    · intro h
      intro f hf hcontra
      have : ((mapValues s.follows).find? (fun f =>
          decide (f.followerId = a) && decide (f.followingId = b))).isSome = true :=
        List.find?_isSome.mpr ⟨f, hf, by simp [hcontra.1, hcontra.2]⟩
      cases hfind : (mapValues s.follows).find? (fun f =>
          decide (f.followerId = a) && decide (f.followingId = b)) with
      | none => rw [hfind] at this; cases this
      | some g =>
        unfold unfollowUser at h
        rw [hfind] at h
        cases h
    · intro h
      unfold unfollowUser
      have hfind : (mapValues s.follows).find? (fun f =>
          decide (f.followerId = a) && decide (f.followingId = b)) = none := by
        rw [List.find?_eq_none]
        intro f hf
        simp only [Bool.and_eq_true, decide_eq_true_eq, not_and]
        intro h1 h2
        exact h f hf ⟨h1, h2⟩
      rw [hfind]
  · intro s' h
    cases hfind : (mapValues s.follows).find? (fun f =>
        decide (f.followerId = a) && decide (f.followingId = b)) with
    | none =>
      unfold unfollowUser at h
      rw [hfind] at h
      cases h
    | some f =>
      have hmem := List.mem_of_find?_eq_some hfind
      have hp := List.find?_some hfind
      simp only [Bool.and_eq_true, decide_eq_true_eq] at hp
      rw [unfollowUser_ok_eq s a b f hfind] at h
      injection h with h
      exact ⟨f, hmem, hp.1, hp.2, by rw [← h]⟩

/-- C9 (implicit): `followUser` never checks that either endpoint is a
registered user: for distinct ids with no existing edge it succeeds even
when one or both users are absent, creating the edge and silently skipping
the counter update of any missing user. -/
theorem followUser_ignores_missing_users (s : MemStorage) (fid : String) (now : Nat)
    (a b : String) (hab : a ≠ b)
    (hnoedge : ∀ f ∈ mapValues s.follows, ¬ (f.followerId = a ∧ f.followingId = b))
    (hfresh : ∀ p ∈ s.follows, p.1 ≠ fid) :
    ∃ s', followUser s fid now a b =
        .ok ({ id := fid, followerId := a, followingId := b, createdAt := some now }, s') ∧
      s'.follows = s.follows ++
        [(fid, { id := fid, followerId := a, followingId := b, createdAt := some now })] ∧
      (getUser s a = none → getUser s' a = none) ∧
      (getUser s b = none → getUser s' b = none) ∧
      (getUser s a = none → getUser s b = none → s'.users = s.users) ∧
      s'.tweets = s.tweets ∧ s'.mentions = s.mentions ∧
      s'.engagements = s.engagements ∧ s'.tweetStats = s.tweetStats := by
  refine ⟨_, followUser_ok_eq s fid now a b hab hnoedge, ?_, ?_, ?_, ?_, rfl, rfl, rfl, rfl⟩
  · exact mapSet_fresh s.follows fid _ hfresh
  · intro ha
    exact applyFollowCounts_a_none s.users a b hab ha
  · intro hb
    exact applyFollowCounts_b_none s.users a b hab hb
  · intro ha hb
    exact applyFollowCounts_both_none s.users a b ha hb

/-- Evaluation of the null-coercion on a present value. -/
theorem orZeroInt_some (v : Int) : orZeroInt (some v) = v := rfl

/-- Replacing `followingCount` by its current value is the identity. -/
theorem User.eta_following (u : User) (v : Option Int) (h : u.followingCount = v) :
    ({ u with followingCount := v }) = u := by
  cases u
  cases h
  rfl

/-- Replacing `followerCount` by its current value is the identity. -/
theorem User.eta_follower (u : User) (v : Option Int) (h : u.followerCount = v) :
    ({ u with followerCount := v }) = u := by
  cases u
  cases h
  rfl

/-- Two successive writes to `followingCount` collapse to the last one. -/
theorem User.following_overwrite (u : User) (v w : Option Int) :
    ({ ({ u with followingCount := v }) with followingCount := w }) =
      { u with followingCount := w } := by
  cases u
  rfl

/-- Two successive writes to `followerCount` collapse to the last one. -/
theorem User.follower_overwrite (u : User) (v w : Option Int) :
    ({ ({ u with followerCount := v }) with followerCount := w }) =
      { u with followerCount := w } := by
  cases u
  rfl

/-- Every user of the map has nonnegative follow counters (after the `|| 0`
coercion). -/
def NonnegUsers (users : AMap User) : Prop :=
  ∀ u ∈ mapValues users, 0 ≤ orZeroInt u.followerCount ∧ 0 ≤ orZeroInt u.followingCount

/-- `applyFollowCounts` when only the followed user exists. -/
theorem applyFollowCounts_a_none_b_some (users : AMap User) (a b : String)
    (ub : User) (ha : mapGet users a = none) (hb : mapGet users b = some ub) :
    applyFollowCounts users a b =
      mapSet users b ({ ub with followerCount := some (orZeroInt ub.followerCount + 1) }) := by
  unfold applyFollowCounts
  rw [ha, hb]

/-- `applyFollowCounts` when only the follower exists. -/
theorem applyFollowCounts_a_some_b_none (users : AMap User) (a b : String)
    (ua : User) (ha : mapGet users a = some ua) (hb : mapGet users b = none) :
    applyFollowCounts users a b =
      mapSet users a ({ ua with followingCount := some (orZeroInt ua.followingCount + 1) }) := by
  unfold applyFollowCounts
  rw [ha, hb]

/-- `applyUnfollowCounts` when neither endpoint exists. -/
theorem applyUnfollowCounts_both_none (users : AMap User) (a b : String)
    (ha : mapGet users a = none) (hb : mapGet users b = none) :
    applyUnfollowCounts users a b = users := by
  unfold applyUnfollowCounts
  rw [ha, hb]

/-- `applyUnfollowCounts` when only the followed user exists. -/
theorem applyUnfollowCounts_a_none_b_some (users : AMap User) (a b : String)
    (ub : User) (ha : mapGet users a = none) (hb : mapGet users b = some ub) :
    applyUnfollowCounts users a b =
      mapSet users b ({ ub with followerCount := some (max 0 (orZeroInt ub.followerCount - 1)) }) := by
  unfold applyUnfollowCounts
  rw [ha, hb]

/-- `applyUnfollowCounts` when only the follower exists. -/
theorem applyUnfollowCounts_a_some_b_none (users : AMap User) (a b : String)
    (ua : User) (ha : mapGet users a = some ua) (hb : mapGet users b = none) :
    applyUnfollowCounts users a b =
      mapSet users a ({ ua with followingCount := some (max 0 (orZeroInt ua.followingCount - 1)) }) := by
  unfold applyUnfollowCounts
  rw [ha, hb]

/-- The follow counter bumps keep the counters nonnegative. -/
theorem applyFollowCounts_nonneg (users : AMap User) (a b : String)
    (h : NonnegUsers users) : NonnegUsers (applyFollowCounts users a b) := by
  have hstepA : ∀ (u : User), u ∈ mapValues users →
      0 ≤ orZeroInt ({ u with followingCount := some (orZeroInt u.followingCount + 1) } : User).followerCount ∧
      0 ≤ orZeroInt ({ u with followingCount := some (orZeroInt u.followingCount + 1) } : User).followingCount := by
    intro u hu
    have := h u hu
    dsimp
    rw [orZeroInt_some]
    constructor
    · exact this.1
    · omega
  have hstepB : ∀ (u : User), u ∈ mapValues users →
      0 ≤ orZeroInt ({ u with followerCount := some (orZeroInt u.followerCount + 1) } : User).followerCount ∧
      0 ≤ orZeroInt ({ u with followerCount := some (orZeroInt u.followerCount + 1) } : User).followingCount := by
    intro u hu
    have := h u hu
    dsimp
    rw [orZeroInt_some]
    constructor
    · omega
    · exact this.2
  cases ha : mapGet users a with
  | none =>
    cases hb : mapGet users b with
    | none => rw [applyFollowCounts_both_none users a b ha hb]; exact h
    | some ub =>
      rw [applyFollowCounts_a_none_b_some users a b ub ha hb]
      intro u hu
      rcases mem_mapValues_mapSet hu with rfl | hu
      · exact hstepB ub (mapGet_mem_values hb)
      · exact h u hu
  | some ua =>
    cases hb : mapGet users b with
    | none =>
      rw [applyFollowCounts_a_some_b_none users a b ua ha hb]
      intro u hu
      rcases mem_mapValues_mapSet hu with rfl | hu
      · exact hstepA ua (mapGet_mem_values ha)
      · exact h u hu
    | some ub =>
      rw [applyFollowCounts_both_some users a b ua ub ha hb]
      intro u hu
      rcases mem_mapValues_mapSet hu with rfl | hu
      · exact hstepB ub (mapGet_mem_values hb)
      · rcases mem_mapValues_mapSet hu with rfl | hu
        · exact hstepA ua (mapGet_mem_values ha)
        · exact h u hu

/-- The floored unfollow decrements keep the counters nonnegative. -/
theorem applyUnfollowCounts_nonneg (users : AMap User) (a b : String)
    (h : NonnegUsers users) : NonnegUsers (applyUnfollowCounts users a b) := by
  have hstepA : ∀ (u : User), u ∈ mapValues users →
      0 ≤ orZeroInt ({ u with followingCount := some (max 0 (orZeroInt u.followingCount - 1)) } : User).followerCount ∧
      0 ≤ orZeroInt ({ u with followingCount := some (max 0 (orZeroInt u.followingCount - 1)) } : User).followingCount := by
    intro u hu
    have := h u hu
    dsimp
    rw [orZeroInt_some]
    exact ⟨this.1, le_max_left 0 _⟩
  have hstepB : ∀ (u : User), u ∈ mapValues users →
      0 ≤ orZeroInt ({ u with followerCount := some (max 0 (orZeroInt u.followerCount - 1)) } : User).followerCount ∧
      0 ≤ orZeroInt ({ u with followerCount := some (max 0 (orZeroInt u.followerCount - 1)) } : User).followingCount := by
    intro u hu
    have := h u hu
    dsimp
    rw [orZeroInt_some]
    exact ⟨le_max_left 0 _, this.2⟩
  cases ha : mapGet users a with
  | none =>
    cases hb : mapGet users b with
    | none => rw [applyUnfollowCounts_both_none users a b ha hb]; exact h
    | some ub =>
      rw [applyUnfollowCounts_a_none_b_some users a b ub ha hb]
      intro u hu
      rcases mem_mapValues_mapSet hu with rfl | hu
      · exact hstepB ub (mapGet_mem_values hb)
      · exact h u hu
  | some ua =>
    cases hb : mapGet users b with
    | none =>
      rw [applyUnfollowCounts_a_some_b_none users a b ua ha hb]
      intro u hu
      rcases mem_mapValues_mapSet hu with rfl | hu
      · exact hstepA ua (mapGet_mem_values ha)
      · exact h u hu
    | some ub =>
      rw [applyUnfollowCounts_both_some users a b ua ub ha hb]
      intro u hu
      rcases mem_mapValues_mapSet hu with rfl | hu
      · exact hstepB ub (mapGet_mem_values hb)
      · rcases mem_mapValues_mapSet hu with rfl | hu
        · exact hstepA ua (mapGet_mem_values ha)
        · exact h u hu

/-- A successful `followUser` keeps the counters nonnegative. -/
theorem followUser_preserves_nonneg (t : MemStorage) (fid2 : String) (now2 : Nat)
    (c d : String) (h : NonnegUsers t.users) :
    ∀ fl t', followUser t fid2 now2 c d = .ok (fl, t') → NonnegUsers t'.users := by
  intro fl t' hok
  by_cases hcd : c = d
  · unfold followUser at hok
    rw [if_pos hcd] at hok
    cases hok
  · cases hfind : (mapValues t.follows).find? (fun f =>
        decide (f.followerId = c) && decide (f.followingId = d)) with
    | some g =>
      unfold followUser at hok
      rw [if_neg hcd, hfind] at hok
      cases hok
    | none =>
      have hnoedge : ∀ f ∈ mapValues t.follows, ¬ (f.followerId = c ∧ f.followingId = d) := by
        rw [List.find?_eq_none] at hfind
        intro f hf hcontra
        have := hfind f hf
        simp [hcontra.1, hcontra.2] at this
      rw [followUser_ok_eq t fid2 now2 c d hcd hnoedge] at hok
      cases hok
      exact applyFollowCounts_nonneg t.users c d h

/-- A successful `unfollowUser` keeps the counters nonnegative. -/
theorem unfollowUser_preserves_nonneg (t : MemStorage) (c d : String)
    (h : NonnegUsers t.users) :
    ∀ t', unfollowUser t c d = .ok t' → NonnegUsers t'.users := by
  intro t' hok
  cases hfind : (mapValues t.follows).find? (fun f =>
      decide (f.followerId = c) && decide (f.followingId = d)) with
  | none =>
    unfold unfollowUser at hok
    rw [hfind] at hok
    cases hok
  | some f =>
    rw [unfollowUser_ok_eq t c d f hfind] at hok
    cases hok
    exact applyUnfollowCounts_nonneg t.users c d h

/-- C2: for distinct registered users with no existing edge, `followUser`
increments the follower's `followingCount` and the followed user's
`followerCount` by exactly one; a subsequent `unfollowUser` restores both
user records and the edge set to their prior values; and any
follow/unfollow operation keeps nonnegative counters nonnegative (the
decrement is floored at zero). -/
theorem follow_unfollow_counter_roundtrip (s : MemStorage) (fid : String) (now : Nat)
    (a b : String) (ua ub : User) (fa fb : Int)
    (hab : a ≠ b)
    (hnoedge : ∀ f ∈ mapValues s.follows, ¬ (f.followerId = a ∧ f.followingId = b))
    (hfresh : ∀ p ∈ s.follows, p.1 ≠ fid)
    (ha : getUser s a = some ua) (hb : getUser s b = some ub)
    (hfa : ua.followingCount = some fa) (hfb : ub.followerCount = some fb)
    (hfa0 : 0 ≤ fa) (hfb0 : 0 ≤ fb) :
    (∃ s', followUser s fid now a b =
        .ok ({ id := fid, followerId := a, followingId := b, createdAt := some now }, s') ∧
      getUser s' a = some ({ ua with followingCount := some (fa + 1) }) ∧
      getUser s' b = some ({ ub with followerCount := some (fb + 1) }) ∧
      ∃ s2, unfollowUser s' a b = .ok s2 ∧
        getUser s2 a = some ua ∧ getUser s2 b = some ub ∧ s2.follows = s.follows) ∧
    (∀ (t : MemStorage) (fid2 : String) (now2 : Nat) (c d : String),
      NonnegUsers t.users →
      (∀ fl t', followUser t fid2 now2 c d = .ok (fl, t') → NonnegUsers t'.users) ∧
      (∀ t', unfollowUser t c d = .ok t' → NonnegUsers t'.users)) := by
  constructor
  · have hfaz : orZeroInt ua.followingCount = fa := by rw [hfa]; rfl
    have hfbz : orZeroInt ub.followerCount = fb := by rw [hfb]; rfl
    have hafc : applyFollowCounts s.users a b =
        mapSet (mapSet s.users a ({ ua with followingCount := some (fa + 1) })) b
          ({ ub with followerCount := some (fb + 1) }) := by
      rw [applyFollowCounts_both_some s.users a b ua ub ha hb, hfaz, hfbz]
    have hok := followUser_ok_eq s fid now a b hab hnoedge
    rw [hafc, mapSet_fresh s.follows fid _ hfresh] at hok
    refine ⟨_, hok, ?_, ?_, ?_⟩
    · unfold getUser
      dsimp only
      rw [mapGet_mapSet_ne _ b a _ hab, mapGet_mapSet_self]
    · unfold getUser
      dsimp only
      rw [mapGet_mapSet_self]
    · have hflmem : (mapValues s.follows).find? (fun f =>
          decide (f.followerId = a) && decide (f.followingId = b)) = none := by
        rw [List.find?_eq_none]
        intro f hf
        simp only [Bool.and_eq_true, decide_eq_true_eq, not_and]
        intro h1 h2
        exact hnoedge f hf ⟨h1, h2⟩
      have hfind2 : (mapValues (s.follows ++
          [(fid, (⟨fid, a, b, some now⟩ : Follow))])).find?
          (fun f => decide (f.followerId = a) && decide (f.followingId = b)) =
          some (⟨fid, a, b, some now⟩ : Follow) := by
        rw [mapValues_append, List.find?_append, hflmem]
        simp [mapValues, List.find?]
      have hunf := unfollowUser_ok_eq
        { s with
            follows := (s.follows ++ [(fid, (⟨fid, a, b, some now⟩ : Follow))]),
            users := (mapSet (mapSet s.users a
              ({ ua with followingCount := some (fa + 1) })) b
              ({ ub with followerCount := some (fb + 1) })) }
        a b _ hfind2
      dsimp only at hunf
      have hgA : mapGet (mapSet (mapSet s.users a
          ({ ua with followingCount := some (fa + 1) })) b
          ({ ub with followerCount := some (fb + 1) })) a =
          some ({ ua with followingCount := some (fa + 1) }) := by
        rw [mapGet_mapSet_ne _ b a _ hab, mapGet_mapSet_self]
      have hgB : mapGet (mapSet (mapSet s.users a
          ({ ua with followingCount := some (fa + 1) })) b
          ({ ub with followerCount := some (fb + 1) })) b =
          some ({ ub with followerCount := some (fb + 1) }) :=
        mapGet_mapSet_self _ _ _
      have hstep1 : max 0 (fa + 1 - 1) = fa := by
        rw [show fa + 1 - 1 = fa from by ring]
        exact max_eq_right hfa0
      have hstep2 : max 0 (fb + 1 - 1) = fb := by
        rw [show fb + 1 - 1 = fb from by ring]
        exact max_eq_right hfb0
      have hua3 : ({ ({ ua with followingCount := some (fa + 1) }) with
          followingCount := some (max 0 (orZeroInt ({ ua with
            followingCount := some (fa + 1) } : User).followingCount - 1)) } : User) = ua := by
        rw [show orZeroInt ({ ua with followingCount := some (fa + 1) } : User).followingCount
          = fa + 1 from rfl, hstep1, User.following_overwrite]
        exact User.eta_following ua (some fa) hfa
      have hub3 : ({ ({ ub with followerCount := some (fb + 1) }) with
          followerCount := some (max 0 (orZeroInt ({ ub with
            followerCount := some (fb + 1) } : User).followerCount - 1)) } : User) = ub := by
        rw [show orZeroInt ({ ub with followerCount := some (fb + 1) } : User).followerCount
          = fb + 1 from rfl, hstep2, User.follower_overwrite]
        exact User.eta_follower ub (some fb) hfb
      have hauc := applyUnfollowCounts_both_some
        (mapSet (mapSet s.users a ({ ua with followingCount := some (fa + 1) })) b
          ({ ub with followerCount := some (fb + 1) })) a b _ _ hgA hgB
      rw [hua3, hub3] at hauc
      rw [hauc, mapDelete_append_fresh s.follows fid _ hfresh] at hunf
      refine ⟨_, hunf, ?_, ?_, rfl⟩
      · unfold getUser
        dsimp only
        rw [mapGet_mapSet_ne _ b a _ hab, mapGet_mapSet_self]
      · unfold getUser
        dsimp only
        rw [mapGet_mapSet_self]
  · intro t fid2 now2 c d ht
    exact ⟨followUser_preserves_nonneg t fid2 now2 c d ht,
      unfollowUser_preserves_nonneg t c d ht⟩

/-! ### The engagement operations, unfolded -/

/-- The stats counter matching an engagement type. -/
def typeCounter : EngType → TweetStats → Option Int
  | .like, st => st.likeCount
  | .retweet, st => st.retweetCount
  | .bookmark, st => st.bookmarkCount

/-- The all-zero stats row created lazily on a tweet's first engagement. -/
def zeroStats (t : String) (now : Nat) : TweetStats :=
  { tweetId := t, replyCount := some 0, retweetCount := some 0, likeCount := some 0,
    bookmarkCount := some 0, impressionCount := some 0, updatedAt := some now }

/-- The per-type counter update of `updateTweetStatsForEngagement`: apply the
delta to the matching counter, floored at zero, and refresh the timestamp. -/
def bumpStats (st : TweetStats) (ty : EngType) (delta : Int) (now : Nat) : TweetStats :=
  let stats2 :=
    match ty with
    | .like => { st with likeCount := some (max 0 (orZeroInt st.likeCount + delta)) }
    | .retweet => { st with retweetCount := some (max 0 (orZeroInt st.retweetCount + delta)) }
    | .bookmark => { st with bookmarkCount := some (max 0 (orZeroInt st.bookmarkCount + delta)) }
  { stats2 with updatedAt := some now }

/-- `updateTweetStatsForEngagement` only rewrites the stats map. -/
theorem uts_frame (s : MemStorage) (t : String) (ty : EngType) (d : Int) (n : Nat) :
    (updateTweetStatsForEngagement s t ty d n).users = s.users ∧
    (updateTweetStatsForEngagement s t ty d n).tweets = s.tweets ∧
    (updateTweetStatsForEngagement s t ty d n).mentions = s.mentions ∧
    (updateTweetStatsForEngagement s t ty d n).follows = s.follows ∧
    (updateTweetStatsForEngagement s t ty d n).engagements = s.engagements := by
  unfold updateTweetStatsForEngagement
  exact ⟨rfl, rfl, rfl, rfl, rfl⟩

/-- The stats row read back after an update on an existing row. -/
theorem uts_get_present (s : MemStorage) (t : String) (ty : EngType) (d : Int)
    (n : Nat) (st : TweetStats) (h : mapGet s.tweetStats t = some st) :
    getTweetStats (updateTweetStatsForEngagement s t ty d n) t =
      some (bumpStats st ty d n) := by
  unfold getTweetStats updateTweetStatsForEngagement bumpStats
  dsimp only
  rw [h]
  dsimp only
  rw [mapGet_mapSet_self]

/-- The stats row read back after an update that lazily created the row. -/
theorem uts_get_absent (s : MemStorage) (t : String) (ty : EngType) (d : Int)
    (n : Nat) (h : mapGet s.tweetStats t = none) :
    getTweetStats (updateTweetStatsForEngagement s t ty d n) t =
      some (bumpStats (zeroStats t n) ty d n) := by
  unfold getTweetStats updateTweetStatsForEngagement bumpStats zeroStats
  dsimp only
  rw [h]
  dsimp only
  rw [mapGet_mapSet_self]

/-- A bump keeps the tweet id. -/
theorem bumpStats_tweetId (st : TweetStats) (ty : EngType) (d : Int) (n : Nat) :
    (bumpStats st ty d n).tweetId = st.tweetId := by
  cases ty <;> rfl

/-- A bump keeps the reply counter. -/
theorem bumpStats_replyCount (st : TweetStats) (ty : EngType) (d : Int) (n : Nat) :
    (bumpStats st ty d n).replyCount = st.replyCount := by
  cases ty <;> rfl

/-- A bump keeps the impression counter. -/
theorem bumpStats_impressionCount (st : TweetStats) (ty : EngType) (d : Int) (n : Nat) :
    (bumpStats st ty d n).impressionCount = st.impressionCount := by
  cases ty <;> rfl

/-- A bump sets the matching counter to the floored updated value. -/
theorem typeCounter_bump (st : TweetStats) (ty : EngType) (d : Int) (n : Nat) :
    typeCounter ty (bumpStats st ty d n) =
      some (max 0 (orZeroInt (typeCounter ty st) + d)) := by
  cases ty <;> rfl

/-- A bump leaves the counters of the other types alone. -/
theorem typeCounter_bump_ne (st : TweetStats) (ty ty2 : EngType) (d : Int) (n : Nat)
    (h : ty2 ≠ ty) : typeCounter ty2 (bumpStats st ty d n) = typeCounter ty2 st := by
  cases ty <;> cases ty2 <;> first
  | rfl
  | exact absurd rfl h

/-- An engage, a removal, and a second engage bring every counter back to its
value after the first engage, provided the starting counter was nonnegative. -/
theorem bumpStats_roundtrip (st0 : TweetStats) (ty : EngType) (n1 n2 n3 : Nat)
    (h : 0 ≤ orZeroInt (typeCounter ty st0)) :
    (bumpStats (bumpStats (bumpStats st0 ty 1 n1) ty (-1) n2) ty 1 n3).replyCount =
        (bumpStats st0 ty 1 n1).replyCount ∧
    (bumpStats (bumpStats (bumpStats st0 ty 1 n1) ty (-1) n2) ty 1 n3).retweetCount =
        (bumpStats st0 ty 1 n1).retweetCount ∧
    (bumpStats (bumpStats (bumpStats st0 ty 1 n1) ty (-1) n2) ty 1 n3).likeCount =
        (bumpStats st0 ty 1 n1).likeCount ∧
    (bumpStats (bumpStats (bumpStats st0 ty 1 n1) ty (-1) n2) ty 1 n3).bookmarkCount =
        (bumpStats st0 ty 1 n1).bookmarkCount ∧
    (bumpStats (bumpStats (bumpStats st0 ty 1 n1) ty (-1) n2) ty 1 n3).impressionCount =
        (bumpStats st0 ty 1 n1).impressionCount := by
  cases ty <;>
    refine ⟨rfl, ?_, ?_, ?_, rfl⟩ <;>
    unfold bumpStats typeCounter at * <;>
    dsimp only at * <;>
    first
    | rfl
    | (simp only [orZeroInt_some, Option.some.injEq]; omega)

/-- On the success path, `engageWithTweet` inserts the record and bumps the
stats. -/
theorem engageWithTweet_ok_eq (s : MemStorage) (fid : String) (now : Nat)
    (u t : String) (ty : EngType)
    (hno : ∀ e ∈ mapValues s.engagements, ¬ (e.userId = u ∧ e.tweetId = t ∧ e.type = ty)) :
    engageWithTweet s fid now u t ty = Except.ok
      ((⟨fid, t, u, ty, some now⟩ : TweetEngagement),
       updateTweetStatsForEngagement
         { s with engagements := (mapSet s.engagements fid
           (⟨fid, t, u, ty, some now⟩ : TweetEngagement)) } t ty 1 now) := by
  have hfind : (mapValues s.engagements).find? (fun e =>
      decide (e.userId = u) && decide (e.tweetId = t) && decide (e.type = ty)) = none := by
    rw [List.find?_eq_none]
    intro e he
    simp only [Bool.and_eq_true, decide_eq_true_eq, not_and, and_imp]
    intro h1 h2 h3
    exact hno e he ⟨h1, h2, h3⟩
  unfold engageWithTweet
  rw [hfind]

/-- On the success path, `removeEngagement` deletes the found record and
applies the `-1` delta. -/
theorem removeEngagement_ok_eq (s : MemStorage) (now : Nat) (u t : String)
    (ty : EngType) (e : TweetEngagement)
    (hfind : (mapValues s.engagements).find? (fun e =>
      decide (e.userId = u) && decide (e.tweetId = t) && decide (e.type = ty)) = some e) :
    removeEngagement s now u t ty = Except.ok
      (updateTweetStatsForEngagement
        { s with engagements := mapDelete s.engagements e.id } t ty (-1) now) := by
  unfold removeEngagement
  rw [hfind]

/-- C4: `engageWithTweet` fails with the duplicate error exactly when a
record for the triple exists (so a repeated engage fails on the second
call); after a successful engage, removing the engagement and engaging again
succeeds and brings every stats counter back to its value after the first
engage; and the stats row is created lazily, all counters zero before the
first increment, on a tweet's first engagement. -/
theorem engagement_duplicate_and_roundtrip (s : MemStorage) (fid fid2 : String)
    (now now2 now3 : Nat) (u t : String) (ty : EngType)
    (hfresh : ∀ p ∈ s.engagements, p.1 ≠ fid)
    (hnonneg : ∀ st, getTweetStats s t = some st → 0 ≤ orZeroInt (typeCounter ty st)) :
    (engageWithTweet s fid now u t ty = .error (.duplicateEngagement ty) ↔
      ∃ e ∈ mapValues s.engagements, e.userId = u ∧ e.tweetId = t ∧ e.type = ty) ∧
    ((∀ e ∈ mapValues s.engagements, ¬ (e.userId = u ∧ e.tweetId = t ∧ e.type = ty)) →
      ∃ eng s1, engageWithTweet s fid now u t ty = .ok (eng, s1) ∧
        engageWithTweet s1 fid2 now2 u t ty = .error (.duplicateEngagement ty) ∧
        ∃ s2, removeEngagement s1 now2 u t ty = .ok s2 ∧
          ∃ eng2 s3, engageWithTweet s2 fid2 now3 u t ty = .ok (eng2, s3) ∧
            ∃ st1 st3, getTweetStats s1 t = some st1 ∧ getTweetStats s3 t = some st3 ∧
              st3.replyCount = st1.replyCount ∧ st3.retweetCount = st1.retweetCount ∧
              st3.likeCount = st1.likeCount ∧ st3.bookmarkCount = st1.bookmarkCount ∧
              st3.impressionCount = st1.impressionCount) ∧
    (getTweetStats s t = none →
      ∀ eng s1, engageWithTweet s fid now u t ty = .ok (eng, s1) →
        ∃ st, getTweetStats s1 t = some st ∧ st.tweetId = t ∧
          typeCounter ty st = some 1 ∧
          (∀ ty2, ty2 ≠ ty → typeCounter ty2 st = some 0) ∧
          st.replyCount = some 0 ∧ st.impressionCount = some 0) := by
  refine ⟨?_, ?_, ?_⟩
  · constructor
    · intro h
      cases hfind : (mapValues s.engagements).find? (fun e =>
          decide (e.userId = u) && decide (e.tweetId = t) && decide (e.type = ty)) with
      | none =>
        unfold engageWithTweet at h
        rw [hfind] at h
        cases h
      | some e =>
        have hmem := List.mem_of_find?_eq_some hfind
        have hp := List.find?_some hfind
        simp only [Bool.and_eq_true, decide_eq_true_eq] at hp
        exact ⟨e, hmem, hp.1.1, hp.1.2, hp.2⟩
    · rintro ⟨e, he, h1, h2, h3⟩
      have hsome : ((mapValues s.engagements).find? (fun e =>
          decide (e.userId = u) && decide (e.tweetId = t) && decide (e.type = ty))).isSome = true :=
        List.find?_isSome.mpr ⟨e, he, by simp [h1, h2, h3]⟩
      cases hfind : (mapValues s.engagements).find? (fun e =>
          decide (e.userId = u) && decide (e.tweetId = t) && decide (e.type = ty)) with
      | none => rw [hfind] at hsome; cases hsome
      | some g =>
        unfold engageWithTweet
        rw [hfind]
  · intro hno
    have hfindNone : (mapValues s.engagements).find? (fun e =>
        decide (e.userId = u) && decide (e.tweetId = t) && decide (e.type = ty)) = none := by
      rw [List.find?_eq_none]
      intro e he
      simp only [Bool.and_eq_true, decide_eq_true_eq, not_and, and_imp]
      intro h1 h2 h3
      exact hno e he ⟨h1, h2, h3⟩
    have hok1 := engageWithTweet_ok_eq s fid now u t ty hno
    rw [mapSet_fresh s.engagements fid _ hfresh] at hok1
    have hengs1 : (updateTweetStatsForEngagement
        { s with engagements := s.engagements ++
          [(fid, (⟨fid, t, u, ty, some now⟩ : TweetEngagement))] } t ty 1 now).engagements =
        s.engagements ++ [(fid, (⟨fid, t, u, ty, some now⟩ : TweetEngagement))] :=
      (uts_frame _ _ _ _ _).2.2.2.2
    have hfind1 : (mapValues (s.engagements ++
        [(fid, (⟨fid, t, u, ty, some now⟩ : TweetEngagement))])).find? (fun e =>
        decide (e.userId = u) && decide (e.tweetId = t) && decide (e.type = ty)) =
        some (⟨fid, t, u, ty, some now⟩ : TweetEngagement) := by
      rw [mapValues_append, List.find?_append, hfindNone]
      simp [mapValues, List.find?]
    refine ⟨_, _, hok1, ?_, ?_⟩
    · unfold engageWithTweet
      rw [hengs1, hfind1]
    · have hrem := removeEngagement_ok_eq
        (updateTweetStatsForEngagement
          { s with engagements := s.engagements ++
            [(fid, (⟨fid, t, u, ty, some now⟩ : TweetEngagement))] } t ty 1 now)
        now2 u t ty (⟨fid, t, u, ty, some now⟩ : TweetEngagement)
        (by rw [hengs1]; exact hfind1)
      dsimp only at hrem
      rw [hengs1, mapDelete_append_fresh s.engagements fid _ hfresh] at hrem
      refine ⟨_, hrem, ?_⟩
      have hengs2 : (updateTweetStatsForEngagement
          { updateTweetStatsForEngagement
              { s with engagements := s.engagements ++
                [(fid, (⟨fid, t, u, ty, some now⟩ : TweetEngagement))] } t ty 1 now
            with engagements := s.engagements } t ty (-1) now2).engagements =
          s.engagements :=
        (uts_frame _ _ _ _ _).2.2.2.2
      have hok2 := engageWithTweet_ok_eq
        (updateTweetStatsForEngagement
          { updateTweetStatsForEngagement
              { s with engagements := s.engagements ++
                [(fid, (⟨fid, t, u, ty, some now⟩ : TweetEngagement))] } t ty 1 now
            with engagements := s.engagements } t ty (-1) now2)
        fid2 now3 u t ty
        (by intro e he hc; rw [hengs2] at he; exact hno e he hc)
      refine ⟨_, _, hok2, ?_⟩
      cases hst : mapGet s.tweetStats t with
      | some st0 =>
        have h0 : 0 ≤ orZeroInt (typeCounter ty st0) := hnonneg st0 hst
        exact ⟨_, _, uts_get_present _ t ty 1 now st0 hst,
          uts_get_present _ t ty 1 now3 _ (uts_get_present _ t ty (-1) now2 _
            (uts_get_present _ t ty 1 now st0 hst)),
          bumpStats_roundtrip st0 ty now now2 now3 h0⟩
      | none =>
        have h0 : 0 ≤ orZeroInt (typeCounter ty (zeroStats t now)) := by
          cases ty <;> exact le_refl 0
        exact ⟨_, _, uts_get_absent _ t ty 1 now hst,
          uts_get_present _ t ty 1 now3 _ (uts_get_present _ t ty (-1) now2 _
            (uts_get_absent _ t ty 1 now hst)),
          bumpStats_roundtrip (zeroStats t now) ty now now2 now3 h0⟩
  · intro hstnone eng s1 hok
    have hno2 : ∀ e ∈ mapValues s.engagements,
        ¬ (e.userId = u ∧ e.tweetId = t ∧ e.type = ty) := by
      intro e he hc
      have hsome : ((mapValues s.engagements).find? (fun e =>
          decide (e.userId = u) && decide (e.tweetId = t) && decide (e.type = ty))).isSome = true :=
        List.find?_isSome.mpr ⟨e, he, by simp [hc.1, hc.2.1, hc.2.2]⟩
      cases hfind : (mapValues s.engagements).find? (fun e =>
          decide (e.userId = u) && decide (e.tweetId = t) && decide (e.type = ty)) with
      | none => rw [hfind] at hsome; cases hsome
      | some g =>
        unfold engageWithTweet at hok
        rw [hfind] at hok
        cases hok
    have hok1 := engageWithTweet_ok_eq s fid now u t ty hno2
    rw [hok1] at hok
    cases hok
    refine ⟨_, uts_get_absent _ t ty 1 now hstnone, ?_, ?_, ?_, ?_, ?_⟩
    · rw [bumpStats_tweetId]
      rfl
    · rw [typeCounter_bump]
      cases ty <;> rfl
    · intro ty2 hne
      rw [typeCounter_bump_ne _ ty ty2 1 now hne]
      cases ty2 <;> rfl
    · rw [bumpStats_replyCount]
      rfl
    · rw [bumpStats_impressionCount]
      rfl

/-- `processMentionTokens` on a single token: create one mention row when the
token resolves to a registered username, otherwise do nothing. -/
theorem processMentionTokens_single (s : MemStorage) (freshIds : Nat → String)
    (now : Nat) (tweetId : String) (i : Nat) (tok : String) :
    processMentionTokens freshIds now tweetId i [tok] s =
      (match getUserByUsername s tok with
       | some u => (createMention s (freshIds i) now tweetId u.id).2
       | none => s) := by
  cases h : getUserByUsername s tok with
  | some u =>
    simp only [processMentionTokens, h]
  | none =>
    simp only [processMentionTokens, h]

/-- C5: creating a tweet with content `"Hello @bob"` through the route
handler creates exactly one mention row, carrying bob's user id and the new
tweet's id, when `bob` is a registered username; when `bob` is unregistered
it creates no mention row, yet the raw token `"bob"` still appears in the
mention list of the response. -/
theorem createTweetRoute_hello_bob (s : MemStorage) (tid : String)
    (freshIds : Nat → String) (now : Nat) (authorId : String)
    (hfresh : ∀ p ∈ s.mentions, p.1 ≠ freshIds 0) :
    extractMentionsFromContent "Hello @bob" = ["bob"] ∧
    (∀ bob, getUserByUsername s "bob" = some bob →
      (createTweetRoute s tid freshIds now authorId "Hello @bob").2.mentions =
        s.mentions ++ [(freshIds 0, (⟨freshIds 0, tid, bob.id, some now⟩ : Mention))]) ∧
    (getUserByUsername s "bob" = none →
      (createTweetRoute s tid freshIds now authorId "Hello @bob").2.mentions = s.mentions ∧
      (createTweetRoute s tid freshIds now authorId "Hello @bob").1.mentions = ["bob"]) := by
  have hex : extractMentionsFromContent "Hello @bob" = ["bob"] := by
    simp [extractMentionsFromContent, extractGo, isWordChar]
  refine ⟨hex, ?_, ?_⟩
  · intro bob hbob
    unfold createTweetRoute createTweet
    dsimp only
    rw [hex, processMentionTokens_single]
    unfold getUserByUsername at hbob ⊢
    dsimp only
    rw [hbob]
    unfold createMention
    dsimp only
    exact mapSet_fresh s.mentions (freshIds 0) _ hfresh
  · intro hbob
    unfold createTweetRoute createTweet
    dsimp only
    rw [hex, processMentionTokens_single]
    unfold getUserByUsername at hbob ⊢
    dsimp only
    rw [hbob]
    exact ⟨rfl, rfl⟩

/-! ### Timeline lemmas -/

/-- Per-store usernames are unique (the data-model invariant of the spec). -/
def UsernamesUnique (s : MemStorage) : Prop :=
  ∀ u ∈ mapValues s.users, ∀ v ∈ mapValues s.users, u.username = v.username → u = v

/-- Membership in `getAllTweets`: exactly the stored tweets whose author
resolves, joined with that author and the raw extracted mention tokens. -/
theorem mem_getAllTweets_iff (s : MemStorage) (tw : TweetWithAuthor) :
    tw ∈ getAllTweets s ↔
      tw.tweet ∈ mapValues s.tweets ∧ getUser s tw.tweet.authorId = some tw.author ∧
      tw.mentions = extractMentionsFromContent tw.tweet.content := by
  unfold getAllTweets
  rw [(sortTimeDesc_perm _ _).mem_iff, List.mem_filterMap]
  constructor
  · rintro ⟨t, ht, hmap⟩
    rcases Option.map_eq_some'.mp hmap with ⟨a, ha, heq⟩
    subst heq
    exact ⟨ht, ha, rfl⟩
  · rintro ⟨ht, ha, hm⟩
    refine ⟨tw.tweet, ht, ?_⟩
    rw [ha, Option.map_some', ← hm]

/-- The joined tweets of `getAllTweets`, projected back to tweet rows, form a
sublist of the stored tweet rows. -/
theorem joined_tweets_sublist (s : MemStorage) (l : List Tweet) :
    ((l.filterMap (fun t => (getUser s t.authorId).map (fun author =>
      ({ tweet := t, author := author,
         mentions := extractMentionsFromContent t.content } : TweetWithAuthor)))).map
      (fun tw => tw.tweet)).Sublist l := by
  induction l with
  | nil => simp
  | cons t l ih =>
    cases hft : getUser s t.authorId with
    | none =>
      rw [List.filterMap_cons_none (by simp [hft])]
      exact List.Sublist.cons t ih
    | some a =>
      rw [List.filterMap_cons_some (show _ = some
          (⟨t, a, extractMentionsFromContent t.content⟩ : TweetWithAuthor) by
        rw [hft]; rfl), List.map_cons]
      exact List.Sublist.cons₂ t ih

/-- With well-formed tweet keys, the ids of `getAllTweets` are distinct. -/
theorem getAllTweets_ids_nodup (s : MemStorage)
    (htweetsK : (s.tweets.map Prod.fst).Nodup)
    (htweetsId : ∀ p ∈ s.tweets, p.2.id = p.1) :
    ((getAllTweets s).map (fun tw => tw.tweet.id)).Nodup := by
  have hvals : ((mapValues s.tweets).map (fun t => t.id)).Nodup := by
    have hmaps : (mapValues s.tweets).map (fun t => t.id) = s.tweets.map Prod.fst := by
      unfold mapValues
      rw [List.map_map]
      exact List.map_congr_left (fun p hp => htweetsId p hp)
    rw [hmaps]
    exact htweetsK
  have hsub := (joined_tweets_sublist s (mapValues s.tweets)).map (fun t => t.id)
  have hjoined : (((mapValues s.tweets).filterMap (fun t =>
      (getUser s t.authorId).map (fun author =>
      ({ tweet := t, author := author,
         mentions := extractMentionsFromContent t.content } : TweetWithAuthor)))).map
      (fun tw => tw.tweet.id)).Nodup := by
    rw [show (fun tw : TweetWithAuthor => tw.tweet.id) =
      ((fun t : Tweet => t.id) ∘ (fun tw : TweetWithAuthor => tw.tweet)) from rfl]
    rw [← List.map_map]
    exact List.Nodup.sublist hsub hvals
  unfold getAllTweets
  rw [((sortTimeDesc_perm tweetTime _).map (fun tw => tw.tweet.id)).nodup_iff]
  exact hjoined

/-- The username-resolution test of the timeline's mention filter answers
exactly "the token is this user's username", given unique usernames and
distinct user ids. -/
theorem mention_lookup_iff (s : MemStorage) (X : User)
    (husersIds : ((mapValues s.users).map (fun u => u.id)).Nodup)
    (huser : UsernamesUnique s) (hX : X ∈ mapValues s.users) (m : String) :
    ((match (mapValues s.users).find? (fun u => decide (u.username = m)) with
      | some mentionedUser => decide (mentionedUser.id = X.id)
      | none => false) = true) ↔ m = X.username := by
  constructor
  · intro h
    cases hf : (mapValues s.users).find? (fun u => decide (u.username = m)) with
    | none => rw [hf] at h; cases h
    | some u =>
      rw [hf] at h
      simp only [decide_eq_true_eq] at h
      have hu := List.mem_of_find?_eq_some hf
      have hp := List.find?_some hf
      simp only [decide_eq_true_eq] at hp
      have heq : u = X := List.inj_on_of_nodup_map husersIds hu hX h
      rw [← hp, heq]
  · intro h
    have hsome : ((mapValues s.users).find? (fun u => decide (u.username = m))).isSome = true :=
      List.find?_isSome.mpr ⟨X, hX, by simp [h]⟩
    cases hf : (mapValues s.users).find? (fun u => decide (u.username = m)) with
    | none => rw [hf] at hsome; cases hsome
    | some u =>
      have hu := List.mem_of_find?_eq_some hf
      have hp := List.find?_some hf
      simp only [decide_eq_true_eq] at hp
      have heq : u = X := huser u hu X hX (hp.trans h)
      simp [heq]

/-- Deduplication is the identity on membership when equal ids force equal
elements. -/
theorem mem_dedupById_iff (l : List TweetWithAuthor)
    (hinj : ∀ x ∈ l, ∀ y ∈ l, x.tweet.id = y.tweet.id → x = y) (x : TweetWithAuthor) :
    x ∈ dedupById l ↔ x ∈ l := by
  constructor
  · exact dedupById_subset l x
  · intro hx
    rcases dedupById_id_surj l x hx with ⟨y, hy, hid⟩
    have heq := hinj y (dedupById_subset l y hy) x hx hid
    rwa [heq] at hy

/-- C1: for a registered user, under the data-model invariants (well-formed
map keys, unique usernames), the timeline holds exactly the joined tweets
the user authored or whose content contains a token `@t` where `t` is the
user's username; it is deduplicated by tweet id and sorted descending by
creation time. -/
theorem getUserTimeline_spec (s : MemStorage) (X : User)
    (husersK : (s.users.map Prod.fst).Nodup)
    (husersId : ∀ p ∈ s.users, p.2.id = p.1)
    (htweetsK : (s.tweets.map Prod.fst).Nodup)
    (htweetsId : ∀ p ∈ s.tweets, p.2.id = p.1)
    (huser : UsernamesUnique s) (hX : X ∈ mapValues s.users) :
    (∀ tw, tw ∈ getAllTweets s ↔
      tw.tweet ∈ mapValues s.tweets ∧ getUser s tw.tweet.authorId = some tw.author ∧
      tw.mentions = extractMentionsFromContent tw.tweet.content) ∧
    (∀ tw, tw ∈ getUserTimeline s X.id ↔
      tw ∈ getAllTweets s ∧
        (tw.tweet.authorId = X.id ∨
          X.username ∈ extractMentionsFromContent tw.tweet.content)) ∧
    ((getUserTimeline s X.id).map (fun tw => tw.tweet.id)).Nodup ∧
    (getUserTimeline s X.id).Pairwise (fun a b => tweetTime b ≤ tweetTime a) := by
  have husersIds : ((mapValues s.users).map (fun u => u.id)).Nodup := by
    have hmaps : (mapValues s.users).map (fun u => u.id) = s.users.map Prod.fst := by
      unfold mapValues
      rw [List.map_map]
      exact List.map_congr_left (fun p hp => husersId p hp)
    rw [hmaps]
    exact husersK
  have hallNodup := getAllTweets_ids_nodup s htweetsK htweetsId
  have hallinj := List.inj_on_of_nodup_map hallNodup
  have htlinj : ∀ (p q : TweetWithAuthor → Bool),
      ∀ x ∈ ((getAllTweets s).filter p ++ (getAllTweets s).filter q),
      ∀ y ∈ ((getAllTweets s).filter p ++ (getAllTweets s).filter q),
      x.tweet.id = y.tweet.id → x = y := by
    intro p q x hx y hy hxy
    have hx' : x ∈ getAllTweets s := by
      rcases List.mem_append.mp hx with h | h
      · exact List.mem_of_mem_filter h
      · exact List.mem_of_mem_filter h
    have hy' : y ∈ getAllTweets s := by
      rcases List.mem_append.mp hy with h | h
      · exact List.mem_of_mem_filter h
      · exact List.mem_of_mem_filter h
    exact hallinj hx' hy' hxy
  refine ⟨mem_getAllTweets_iff s, ?_, ?_, ?_⟩
  · intro tw
    unfold getUserTimeline
    dsimp only
    rw [(sortTimeDesc_perm tweetTime _).mem_iff, mem_dedupById_iff _ (htlinj _ _),
      List.mem_append, List.mem_filter, List.mem_filter]
    constructor
    · rintro (⟨htw, hp⟩ | ⟨htw, hp⟩)
      · simp only [decide_eq_true_eq] at hp
        exact ⟨htw, Or.inl hp⟩
      · refine ⟨htw, Or.inr ?_⟩
        have hm := ((mem_getAllTweets_iff s tw).mp htw).2.2
        simp only [List.any_eq_true] at hp
        rcases hp with ⟨m, hmm, hcond⟩
        have hmx := (mention_lookup_iff s X husersIds huser hX m).mp hcond
        rw [hm] at hmm
        rwa [hmx] at hmm
    · rintro ⟨htw, hcase | hcase⟩
      · exact Or.inl ⟨htw, by simp [hcase]⟩
      · refine Or.inr ⟨htw, ?_⟩
        simp only [List.any_eq_true]
        have hm := ((mem_getAllTweets_iff s tw).mp htw).2.2
        refine ⟨X.username, ?_,
          (mention_lookup_iff s X husersIds huser hX X.username).mpr rfl⟩
        rw [hm]
        exact hcase
  · unfold getUserTimeline
    dsimp only
    rw [((sortTimeDesc_perm tweetTime _).map (fun tw => tw.tweet.id)).nodup_iff]
    exact dedupById_ids_nodup _
  · unfold getUserTimeline
    dsimp only
    exact sortTimeDesc_pairwise tweetTime _

/-! ### Concrete witnesses -/

/-- Fixture user `alice`. -/
def aliceW : User := mkUser "u1" "alice" "alice@x.test" "pw-a" "Alice"

/-- Fixture user `bob`. -/
def bobW : User := mkUser "u2" "bob" "bob@x.test" "pw-b" "Bob"

/-- Fixture tweet by alice mentioning bob. -/
def tweetW : Tweet :=
  ⟨"t1", "hello @bob", "u1", none, some false, none, none, none, some 10, some 10, none⟩

/-- Fixture store: two users and one tweet. -/
def storeW : MemStorage :=
  ⟨[("u1", aliceW), ("u2", bobW)], [("t1", tweetW)], [], [], [], []⟩

/-- Fixture store with a mention row attached to the tweet. -/
def storeW7 : MemStorage :=
  ⟨[("u1", aliceW), ("u2", bobW)], [("t1", tweetW)],
   [("m1", ⟨"m1", "t1", "u2", some 3⟩)], [], [], []⟩

/-- The store left by deleting the only tweet of `storeW`. -/
def storeWdel : MemStorage :=
  ⟨[("u1", aliceW), ("u2", bobW)], [], [], [], [], []⟩

/-- Witness for the timeline claim at a concrete store. -/
theorem getUserTimeline_spec_witness :
    ((getUserTimeline storeW aliceW.id).map (fun tw => tw.tweet.id)).Nodup :=
  (getUserTimeline_spec storeW aliceW (by decide) (by decide) (by decide) (by decide)
    (by unfold UsernamesUnique; decide) (by decide)).2.2.1

/-- Witness for the follow/unfollow counter claim at a concrete store. -/
theorem follow_unfollow_counter_roundtrip_witness :
    ∃ s', followUser storeW "f1" 5 "u1" "u2" =
        .ok ({ id := "f1", followerId := "u1", followingId := "u2", createdAt := some 5 }, s') ∧
      getUser s' "u1" = some ({ aliceW with followingCount := some ((0 : Int) + 1) }) ∧
      getUser s' "u2" = some ({ bobW with followerCount := some ((0 : Int) + 1) }) ∧
      ∃ s2, unfollowUser s' "u1" "u2" = .ok s2 ∧
        getUser s2 "u1" = some aliceW ∧ getUser s2 "u2" = some bobW ∧
        s2.follows = storeW.follows :=
  (follow_unfollow_counter_roundtrip storeW "f1" 5 "u1" "u2" aliceW bobW 0 0
    (by decide) (by decide) (by decide) (by decide) (by decide) (by decide) (by decide)
    (by decide) (by decide)).1

/-- Witness for the follow error-condition claim at a concrete store. -/
theorem follow_error_conditions_witness :
    (followUser storeW "f1" 5 "u1" "u1" = .error .selfFollow ↔ ("u1" : String) = "u1") :=
  (follow_error_conditions storeW "f1" 5 "u1" "u1" (by decide)).1

/-- Witness for the engagement claim at a concrete store. -/
theorem engagement_duplicate_and_roundtrip_witness :
    (engageWithTweet storeW "e1" 5 "u1" "t1" .like =
        .error (.duplicateEngagement .like) ↔
      ∃ e ∈ mapValues storeW.engagements,
        e.userId = "u1" ∧ e.tweetId = "t1" ∧ e.type = EngType.like) :=
  (engagement_duplicate_and_roundtrip storeW "e1" "e2" 5 6 7 "u1" "t1" EngType.like
    (by decide)
    (by intro st hst; simp [getTweetStats, mapGet, storeW] at hst)).1

/-- Witness for the mention-creation claim at a concrete store. -/
theorem createTweetRoute_hello_bob_witness :
    extractMentionsFromContent "Hello @bob" = ["bob"] :=
  (createTweetRoute_hello_bob storeW "t9" (fun i => "m1") 7 "u1" (by decide)).1

/-- Witness for the tweet-update claim at a concrete store. -/
theorem updateTweet_content_only_witness :
    ∃ s', updateTweet storeW "t1" "edited" = .ok ({ tweetW with content := "edited" }, s') ∧
      s'.users = storeW.users ∧ s'.mentions = storeW.mentions ∧ s'.follows = storeW.follows ∧
      s'.engagements = storeW.engagements ∧ s'.tweetStats = storeW.tweetStats ∧
      getTweetById s' "t1" = some ({ tweetW with content := "edited" }) ∧
      (∀ k, k ≠ "t1" → getTweetById s' k = getTweetById storeW k) :=
  (updateTweet_content_only storeW "t1" "edited").2 tweetW (by decide)

/-- Witness for the tweet-deletion cascade claim at a concrete store. -/
theorem deleteTweet_cascades_mentions_witness :
    ∃ s', deleteTweet storeW7 "t1" = .ok s' ∧
      getTweetById s' "t1" = none ∧
      getTweetMentions s' "t1" = [] ∧
      (∀ k, k ≠ "t1" → getTweetById s' k = getTweetById storeW7 k) ∧
      (∀ p ∈ s'.mentions, p ∈ storeW7.mentions ∧ p.2.tweetId ≠ "t1") ∧
      s'.users = storeW7.users ∧ s'.follows = storeW7.follows ∧
      s'.engagements = storeW7.engagements ∧ s'.tweetStats = storeW7.tweetStats :=
  (deleteTweet_cascades_mentions storeW7 "t1" (by decide)).2 tweetW (by decide)

/-- Witness for the missing-user follow claim at a concrete store. -/
theorem followUser_ignores_missing_users_witness :
    ∃ s', followUser storeW "f1" 5 "u9" "u8" =
        .ok ({ id := "f1", followerId := "u9", followingId := "u8", createdAt := some 5 }, s') ∧
      s'.follows = storeW.follows ++
        [("f1", { id := "f1", followerId := "u9", followingId := "u8", createdAt := some 5 })] ∧
      (getUser storeW "u9" = none → getUser s' "u9" = none) ∧
      (getUser storeW "u8" = none → getUser s' "u8" = none) ∧
      (getUser storeW "u9" = none → getUser storeW "u8" = none → s'.users = storeW.users) ∧
      s'.tweets = storeW.tweets ∧ s'.mentions = storeW.mentions ∧
      s'.engagements = storeW.engagements ∧ s'.tweetStats = storeW.tweetStats :=
  followUser_ignores_missing_users storeW "f1" 5 "u9" "u8" (by decide) (by decide) (by decide)

/-- Witness for the deletion frame claim at a concrete store. -/
theorem deleteTweet_keeps_engagements_witness :
    storeWdel.engagements = storeW.engagements ∧
    storeWdel.tweetStats = storeW.tweetStats ∧
    getTweetStats storeWdel "t1" = getTweetStats storeW "t1" ∧
    (∀ u, getUserEngagement storeWdel u "t1" = getUserEngagement storeW u "t1") :=
  deleteTweet_keeps_engagements storeW "t1" storeWdel (by rfl)

end Munch










